import Mathlib

/-!
Verification of the BananaFlow workflow engine (`src/App.tsx` and the
gemini service module) against its natural-language specification.

The development shallowly embeds, in Lean:
* the graph data model (`types.ts`),
* the retry/backoff wrapper `withRetry` and the error formatter of the
  service module,
* the service functions `generateText`, `generateImage`, `editImage`,
  `executePreset`, `generateVideo` (external API calls are an oracle
  parameter; each service function's guard/catch/format logic is embedded
  from the source),
* the scheduling phase of `runWorkflow` (adjacency/in-degree construction
  and Kahn's algorithm, including the `TypeError` raised when an edge's
  source node is missing, modelled as `Except.error`, and the NaN-like
  behaviour of `undefined` numeric map entries, modelled by `Option Int`
  with `none` absorbing all arithmetic),
* the execution loop of `runWorkflow` (reset, input resolution, muted
  passthrough, per-kind dispatch, output routing, history appends, abort
  on first thrown error),
* the port-compatibility test and the auto-routing scan of `handleMouseUp`.

JavaScript string operations used by the code (`split`, `startsWith`,
`endsWith`, `toLowerCase`, `includes`) are re-implemented structurally on
`List Char` so that every definition evaluates by kernel reduction.
-/

namespace BananaFlow

/-! ### JavaScript string primitives, embedded structurally -/

/-- `leadsWith l p` is true when `p` is a prefix of `l` (JS `startsWith` on
character lists). -/
def leadsWith : List Char → List Char → Bool
  | _, [] => true
  | [], _ :: _ => false
  | c :: cs, d :: ds => c == d && leadsWith cs ds

/-- `hasSub l sub`: `sub` occurs as a contiguous sublist of `l`
(JS `String.prototype.includes`). -/
def hasSub : List Char → List Char → Bool
  | [], sub => sub.isEmpty
  | c :: cs, sub => leadsWith (c :: cs) sub || hasSub cs sub

/-- JS `s.includes(sub)`. -/
def strContains (s sub : String) : Bool := hasSub s.data sub.data

/-- JS `s.startsWith(p)`. -/
def strStarts (s p : String) : Bool := leadsWith s.data p.data

/-- JS `s.endsWith(p)`. -/
def strEnds (s p : String) : Bool := leadsWith s.data.reverse p.data.reverse

/-- ASCII lower-casing of one character (enough for the `toLowerCase` use in
the rate-limit classifier, whose needle `"rate limit"` is ASCII). -/
def chLower (c : Char) : Char :=
  if 'A' ≤ c && c ≤ 'Z' then Char.ofNat (c.toNat + 32) else c

/-- JS `s.toLowerCase()` (ASCII fragment). -/
def strLower (s : String) : String := ⟨s.data.map chLower⟩

/-- Splitting on a one-character separator, accumulator-passing style. -/
def splitOnCharAux (sep : Char) : List Char → List Char → List (List Char)
  | [], acc => [acc.reverse]
  | c :: cs, acc =>
    if c == sep then acc.reverse :: splitOnCharAux sep cs []
    else splitOnCharAux sep cs (c :: acc)

/-- JS `s.split(sep)` for a one-character separator (the code only splits on
`','`, `':'` and `';'`). -/
def strSplitChar (s : String) (sep : Char) : List String :=
  (splitOnCharAux sep s.data []).map (fun l => ⟨l⟩)

/-- Occurrence count of a string in a list (used by the scheduler proofs). -/
def cnt (x : String) (l : List String) : Nat :=
  l.countP (fun y => decide (y = x))

theorem cnt_nil (x : String) : cnt x [] = 0 := rfl

theorem cnt_cons (x y : String) (l : List String) :
    cnt x (y :: l) = cnt x l + if y = x then 1 else 0 := by
  simp [cnt, List.countP_cons]

theorem cnt_append (x : String) (l₁ l₂ : List String) :
    cnt x (l₁ ++ l₂) = cnt x l₁ + cnt x l₂ := by
  simp [cnt, List.countP_append]

theorem cnt_pos_iff_mem (x : String) (l : List String) :
    0 < cnt x l ↔ x ∈ l := by
  simp only [cnt, List.countP_pos_iff]
  constructor
  · rintro ⟨a, ha, hd⟩
    simp only [decide_eq_true_iff] at hd
    exact hd ▸ ha
  · intro hx
    exact ⟨x, hx, by simp⟩

theorem cnt_eq_zero_iff_not_mem (x : String) (l : List String) :
    cnt x l = 0 ↔ x ∉ l := by
  rw [← cnt_pos_iff_mem]
  omega

theorem nodup_cnt_le_one {l : List String} (h : l.Nodup) (x : String) :
    cnt x l ≤ 1 := by
  induction l with
  | nil => simp [cnt_nil]
  | cons a as ih =>
    rw [List.nodup_cons] at h
    rw [cnt_cons]
    by_cases hax : a = x
    · subst hax
      have := (cnt_eq_zero_iff_not_mem a as).mpr h.1
      simp [this]
    · have := ih h.2
      simp [hax]
      omega

/-! ### Data model (`types.ts`) -/

/-- Port semantic types (`'text' | 'image' | 'video' | 'any'`). -/
inductive PortType where
  | text
  | image
  | video
  | any
deriving DecidableEq

/-- `NodeType` enum. -/
inductive NodeType where
  | TEXT_INPUT
  | IMAGE_INPUT
  | TEXT_GENERATOR
  | IMAGE_EDITOR
  | VIDEO_GENERATOR
  | OUTPUT_DISPLAY
  | PROMPT_PRESET
deriving DecidableEq

/-- `NodeStatus` enum. -/
inductive NodeStatus where
  | IDLE
  | PROCESSING
  | COMPLETED
  | ERROR
deriving DecidableEq

/-- `NodeInput` / `NodeOutput`: an id, a label and a semantic type. -/
structure Port where
  id : String
  label : String
  type : PortType
deriving DecidableEq

/-- JavaScript values flowing through `nodeOutputs` / `inputs` / `content`:
`undefined`, `null`, strings (text and data-URLs), `File` uploads (carrying
the base64 payload and mime type that `fileToGenerativePart` extracts), the
structured `{image, text}` results of editor/preset nodes, and the
`{progress}` placeholder written while a node is processing. -/
inductive JSVal where
  | undef
  | null
  | str (s : String)
  | file (data : String) (mime : String)
  | imageText (image : JSVal) (text : JSVal)
  | progress (msg : String)
deriving DecidableEq

/-- JS truthiness for the values above (objects are always truthy; the empty
string, `null` and `undefined` are falsy). -/
def truthy : JSVal → Bool
  | .undef => false
  | .null => false
  | .str s => !(s == "")
  | _ => true

/-- `NodeData` (presentation-only fields `width`/`height` omitted). -/
structure NodeData where
  label : String
  inputs : List Port
  outputs : List Port
  content : JSVal
  status : NodeStatus
  errorMessage : Option String
  prompt : Option String
  isMuted : Bool
deriving DecidableEq

/-- `Node` (position and z-index are presentation-only and omitted). -/
structure Node where
  id : String
  type : NodeType
  data : NodeData
deriving DecidableEq

/-- `Edge`. -/
structure Edge where
  id : String
  sourceNodeId : String
  sourceHandleId : String
  targetNodeId : String
  targetHandleId : String
deriving DecidableEq

/-- `HistoryItem` (`type` is always `'image'` at both creation sites; the
`prompt` field receives whatever value flowed into the node, hence `JSVal`). -/
structure HistoryItem where
  id : String
  type : String
  dataUrl : String
  prompt : JSVal
deriving DecidableEq

/-! ### Error envelope and retry wrapper (service module) -/

/-- The shape of a thrown `Error`'s `message` as seen by `withRetry` and
`formatError`, which both try `JSON.parse(error.message)` and inspect the
`error.code` / `error.status` / `error.message` fields of the parse result.
`json raw code status msg` models a message `raw` that parses as JSON with
those (optional) fields under `.error`; `plain s` models a message that is
not valid JSON, for which only the textual fallback applies. -/
inductive ErrMessage where
  | json (raw : String) (code : Option Int) (status : Option String) (msg : Option String)
  | plain (s : String)
deriving DecidableEq

/-- The rate-limit classifier inside `withRetry`'s catch block: a parsed
message is rate-limit-class when `.error.code === 429` or
`.error.status === 'RESOURCE_EXHAUSTED'`; an unparseable message falls back
to a textual match for `'429'` or (lower-cased) `'rate limit'`.  The
`s == ""` guard mirrors the `error.message` truthiness test that precedes
classification. -/
def isRateLimitError : ErrMessage → Bool
  | .json _ code status _ =>
      code == some 429 || status == some "RESOURCE_EXHAUSTED"
  | .plain s =>
      !(s == "") && (strContains s "429" || strContains (strLower s) "rate limit")

/-- `formatError`: unwrap `.error.message` (suffixing `.error.status` when
present) from a JSON-encoded message, else return the raw message, with the
`"Error: "` prefix the service module adds. -/
def formatError (error : ErrMessage) : String :=
  "Error: " ++
    match error with
    | .plain s => s
    | .json raw _ status msg =>
      match msg with
      | some m =>
        if m == "" then raw
        else
          m ++ match status with
               | some st => if st == "" then "" else " (Status: " ++ st ++ ")"
               | none => ""
      | none => raw

def MAX_RETRIES : Nat := 3

def INITIAL_DELAY_MS : ℚ := 2000

/-- The retry loop of `withRetry`.  `call i` is the outcome of the `i`-th
invocation of the wrapped `apiCall` (the external call is effectful, so the
attempts are indexed); `jitter i` is the value of `Math.random() * 1000`
sampled before the `i`-th backoff sleep.  The loop counter is
`i = MAX_RETRIES - fuel`; `lastError` holds the last caught error for the
`throw lastError` after the loop (unreachable for `MAX_RETRIES = 3`).
Returns the overall outcome, the number of invocations made, and the list
of backoff delays awaited. -/
def retryGo (call : Nat → Except ErrMessage α) (jitter : Nat → ℚ) :
    Option ErrMessage → Nat → List ℚ → Nat → Except ErrMessage α × Nat × List ℚ
  | lastError, calls, waits, 0 =>
      (.error (lastError.getD (.plain "undefined")), calls, waits)
  | _, calls, waits, fuel + 1 =>
      let i := MAX_RETRIES - (fuel + 1)
      match call i with
      | .ok v => (.ok v, calls + 1, waits)
      | .error e =>
        if isRateLimitError e then
          if i < MAX_RETRIES - 1 then
            retryGo call jitter (some e) (calls + 1)
              (waits ++ [INITIAL_DELAY_MS * 2 ^ i + jitter i]) fuel
          else (.error e, calls + 1, waits)
        else (.error e, calls + 1, waits)

/-- `withRetry apiCall` run to completion: result, invocation count, delays. -/
def withRetry (call : Nat → Except ErrMessage α) (jitter : Nat → ℚ) :
    Except ErrMessage α × Nat × List ℚ :=
  retryGo call jitter none 0 [] MAX_RETRIES

/-! ### Service layer (gemini service module)

External calls are an oracle.  Each oracle field models the outcome of one
retry-wrapped raw API call (`generateContentWithRetry`, …): either the value
the call resolved to or the error it ultimately threw (retry behaviour is
verified separately on `withRetry`).  The service functions' own logic —
falsy-argument guards, response-shape checks, catch-and-format — is embedded
from the source. -/

/-- One part of a `generateContent` response candidate: optional `text`
field, optional `inlineData.data` payload. -/
structure RespPart where
  text : Option String
  inlineData : Option String
deriving DecidableEq

/-- One entry of `response.generatedImages`: the optional `image` object
with `imageBytes` and optional `mimeType`. -/
structure GenImage where
  image : Option (String × Option String)
deriving DecidableEq

/-- A record of one external call made during a run (the trace lets "no
external call is made" be stated).  Prompts carry the raw flowing value. -/
inductive SvcReq where
  | genContentText (prompt : JSVal)
  | genImages (prompt : JSVal)
  | genContentParts (images : List (String × String)) (prompt : JSVal)
  | genVideos (image : Option (String × String)) (prompt : JSVal)
deriving DecidableEq

/-- The external generation service, as seen through the retry wrapper. -/
structure Oracle where
  genContentText : JSVal → Except ErrMessage String
  genImages : JSVal → Except ErrMessage (List GenImage)
  genContentParts : List (String × String) → JSVal → Except ErrMessage (List RespPart)
  videoResult : Option (String × String) → JSVal → String

/-- The part-scanning loop shared by `editImage` and `executePreset`:
`if (part.text) text = part.text; else if (part.inlineData)
newBase64Image = part.inlineData.data`.  Accumulator is
`(newBase64Image, text)`. -/
def extractParts (parts : List RespPart) : Option String × Option String :=
  parts.foldl
    (fun acc p =>
      match p.text with
      | some t =>
        if t == "" then
          match p.inlineData with
          | some d => (some d, acc.2)
          | none => acc
        else (acc.1, some t)
      | none =>
        match p.inlineData with
        | some d => (some d, acc.2)
        | none => acc)
    (none, none)

/-- `generateText` from the service module: empty-prompt guard, one wrapped
call, and — crucially — a `catch` that turns any thrown error into the
formatted error **string** returned as the ordinary result.  Returns the
string and the extended call trace. -/
def generateText (o : Oracle) (prompt : JSVal) (tr : List SvcReq) :
    String × List SvcReq :=
  if !truthy prompt then ("Error: Prompt is empty.", tr)
  else
    match o.genContentText prompt with
    | .ok t => (t, tr ++ [.genContentText prompt])
    | .error e => (formatError e, tr ++ [.genContentText prompt])

/-- `generateImage`: empty-prompt guard, wrapped `generateImages` call,
data-URL assembly from the first generated image (mime defaulting to
`image/jpeg`), error strings for missing images and caught errors. -/
def generateImage (o : Oracle) (prompt : JSVal) (tr : List SvcReq) :
    String × List SvcReq :=
  if !truthy prompt then ("Error: Prompt is empty.", tr)
  else
    match o.genImages prompt with
    | .ok imgs =>
      (match imgs.head? with
       | some g =>
         match g.image with
         | some (bytes, mimeOpt) =>
           let mime := match mimeOpt with
                       | some m => if m == "" then "image/jpeg" else m
                       | none => "image/jpeg"
           ("data:" ++ mime ++ ";base64," ++ bytes, tr ++ [.genImages prompt])
         | none => ("Error: Image generation failed to produce an image.",
                    tr ++ [.genImages prompt])
       | none => ("Error: Image generation failed to produce an image.",
                  tr ++ [.genImages prompt]))
    | .error e => (formatError e, tr ++ [.genImages prompt])

/-- `editImage`: missing-argument guard, wrapped `generateContent` call with
one image part plus the text part, part scan; a caught error becomes a
`{newBase64Image: null, text: "Error: …"}` result, never a throw. -/
def editImage (o : Oracle) (base64Image mimeType : String) (prompt : JSVal)
    (tr : List SvcReq) : (Option String × Option String) × List SvcReq :=
  if base64Image == "" || !truthy prompt then
    ((none, some "Error: Image or prompt is missing."), tr)
  else
    match o.genContentParts [(base64Image, mimeType)] prompt with
    | .ok parts => (extractParts parts, tr ++ [.genContentParts [(base64Image, mimeType)] prompt])
    | .error e => ((none, some (formatError e)), tr ++ [.genContentParts [(base64Image, mimeType)] prompt])

/-- `executePreset`: like `editImage` but with a list of image parts and a
plain template string as prompt. -/
def executePreset (o : Oracle) (inputs : List (String × String)) (prompt : String)
    (tr : List SvcReq) : (Option String × Option String) × List SvcReq :=
  if inputs.isEmpty || prompt == "" then
    ((none, some "Error: Image(s) or prompt is missing."), tr)
  else
    match o.genContentParts inputs (.str prompt) with
    | .ok parts => (extractParts parts, tr ++ [.genContentParts inputs (.str prompt)])
    | .error e => ((none, some (formatError e)), tr ++ [.genContentParts inputs (.str prompt)])

/-- `generateVideo`: empty-prompt guard (no call), else one video-generation
request.  The initiate/poll/fetch pipeline catches every error and always
resolves to a string (either an object URL or a formatted error message), so
its engine-visible behaviour is: one traced request and an oracle-supplied
string result; the poll loop's internals terminate only when the external
service reports completion and are summarised by `Oracle.videoResult`. -/
def generateVideo (o : Oracle) (image : Option (String × String)) (prompt : JSVal)
    (tr : List SvcReq) : String × List SvcReq :=
  if !truthy prompt then ("Error: Prompt is empty.", tr)
  else (o.videoResult image prompt, tr ++ [.genVideos image prompt])

/-! ### Scheduling phase of `runWorkflow`

`adj` and `inDegree` are JS objects keyed by node id; a missing key reads as
`undefined`.  `adj : String → Option (List String)` with `none` for missing
keys: `adj[edge.sourceNodeId].push(...)` on `undefined` throws a
`TypeError`, modelled as `Except.error`.  `inDegree : String → Option Int`
with `none` playing `NaN`/`undefined`: `undefined++` yields `NaN`, which
absorbs all further arithmetic and never satisfies `=== 0`, exactly the
behaviour of `Option.map` on `none`. -/

/-- `nodeIds.reduce((acc, id) => ({...acc, [id]: []}), {})`. -/
def initAdj (nodeIds : List String) : String → Option (List String) :=
  fun v => if v ∈ nodeIds then some [] else none

/-- `nodeIds.reduce((acc, id) => ({...acc, [id]: 0}), {})`. -/
def initDeg (nodeIds : List String) : String → Option Int :=
  fun v => if v ∈ nodeIds then some 0 else none

/-- `Object.values(edges).forEach(edge => { adj[edge.sourceNodeId].push(
edge.targetNodeId); inDegree[edge.targetNodeId]++; })`. -/
def buildPhase :
    (String → Option (List String)) → (String → Option Int) → List Edge →
    Except String ((String → Option (List String)) × (String → Option Int))
  | adj, deg, [] => .ok (adj, deg)
  | adj, deg, e :: rest =>
    match adj e.sourceNodeId with
    | none => .error "TypeError: Cannot read properties of undefined (reading push)"
    | some l =>
      buildPhase
        (fun v => if v = e.sourceNodeId then some (l ++ [e.targetNodeId]) else adj v)
        (fun v => if v = e.targetNodeId then (deg v).map (· + 1) else deg v)
        rest

/-- The body of `adj[u]?.forEach(v => { inDegree[v]--; if (inDegree[v] === 0)
queue.push(v); })`: decrement each adjacent node's in-degree in order,
appending to the queue each node whose post-decrement degree is exactly 0. -/
def processAdj :
    (String → Option Int) → List String → List String →
    (String → Option Int) × List String
  | deg, queue, [] => (deg, queue)
  | deg, queue, v :: vs =>
    let deg1 := fun x => if x = v then (deg x).map (fun n => n - 1) else deg x
    let queue1 := if deg1 v = some 0 then queue ++ [v] else queue
    processAdj deg1 queue1 vs

/-- The `while (queue.length > 0)` loop: shift the head, append it to the
execution order, process its adjacency list.  Fuel bounds the iteration
count (any fuel at least the node count is sufficient; see
`kahnLoop_spec`).  Returns (order, final degrees, residual queue). -/
def kahnLoop (adj : String → Option (List String)) :
    Nat → (String → Option Int) → List String → List String →
    List String × (String → Option Int) × List String
  | 0, deg, queue, order => (order, deg, queue)
  | fuel + 1, deg, queue, order =>
    match queue with
    | [] => (order, deg, [])
    | u :: rest =>
      match adj u with
      | none => kahnLoop adj fuel deg rest (order ++ [u])
      | some vs =>
        let p := processAdj deg rest vs
        kahnLoop adj fuel p.1 p.2 (order ++ [u])

/-- The whole scheduling phase: build adjacency and in-degrees (possibly
throwing), seed the queue with the zero-in-degree nodes in key order, run
Kahn's loop. -/
def kahnOrder (nodeIds : List String) (edges : List Edge) :
    Except String (List String) :=
  match buildPhase (initAdj nodeIds) (initDeg nodeIds) edges with
  | .error msg => .error msg
  | .ok (adj, deg) =>
    let queue := nodeIds.filter (fun id => decide (deg id = some 0))
    .ok (kahnLoop adj nodeIds.length deg queue []).1

/-! ### Execution phase of `runWorkflow` -/

/-- The mutable state the execution loop reads and writes: the node map
(an association list in `Object.keys` insertion order), the artifact
history, the `nodeOutputs` map (handle id → last produced value, absent
keys reading as `undefined`), and the trace of external calls made. -/
structure EngineState where
  nodes : List (String × Node)
  history : List HistoryItem
  nodeOutputs : String → JSVal
  trace : List SvcReq

/-- `nodes[nodeId]`. -/
def lookupNode (st : EngineState) (nodeId : String) : Option Node :=
  (st.nodes.find? (fun p => decide (p.1 = nodeId))).map (·.2)

/-- `updateNodeData(nodeId, …)` restricted to the data record: rewrite the
entry with the given id, leave the map unchanged when the id is absent. -/
def setNodeData (nodes : List (String × Node)) (nodeId : String)
    (f : NodeData → NodeData) : List (String × Node) :=
  nodes.map (fun p =>
    if p.1 = nodeId then (p.1, { p.2 with data := f p.2.data }) else p)

/-- Gathering a node's inputs: for each edge targeting the node (in edge-map
insertion order) write the source handle's last output under the target
handle id; a later edge to the same handle overwrites an earlier one, and
unfed handles read `undefined`. -/
def resolveInputs (edges : List Edge) (nodeOutputs : String → JSVal)
    (nodeId : String) : String → JSVal :=
  (edges.filter (fun e => decide (e.targetNodeId = nodeId))).foldl
    (fun inputs e =>
      fun h => if h = e.targetHandleId then nodeOutputs e.sourceHandleId else inputs h)
    (fun _ => JSVal.undef)

/-- Write the same value under every output handle of the list. -/
def writeOutputs (outs : String → JSVal) (ports : List Port) (v : JSVal) :
    String → JSVal :=
  ports.foldl (fun acc op => fun h => if h = op.id then v else acc h) outs

/-- `processImageInput`: `null` for falsy input; a `File` yields its base64
payload and mime type; a `data:image…` string is split into mime type and
payload (a string passing the `startsWith` test always contains `':'` and
`','` is handled by JS destructuring, so the `getD` defaults are inert);
anything else yields `null`. -/
def processImageInput : JSVal → Option (String × String)
  | .file d m => some (d, m)
  | .str s =>
    if strStarts s "data:image" then
      let parts := strSplitChar s ','
      let meta := parts.headD ""
      let base64 := parts.getD 1 ""
      let mime := ((strSplitChar meta ':').getD 1 "" |> (strSplitChar · ';')).headD ""
      some (base64, mime)
    else none
  | _ => none

/-- `result.text || default` (JS falsy-or). -/
def errTextOr (txt : Option String) (d : String) : String :=
  match txt with
  | some t => if t == "" then d else t
  | none => d

/-- `Option String` to the JS value stored in an `{image, text}` output. -/
def optStrToVal : Option String → JSVal
  | some t => .str t
  | none => .null

/-- JS truthiness of `node.data.prompt` (`undefined` or `''` are falsy). -/
def promptTruthy : Option String → Bool
  | some p => !(p == "")
  | none => false

/-- The raw value sequence a `PROMPT_PRESET` node collects before image
decoding: all values connected to the aggregating multi-image handle in
edge-map insertion order when that handle exists, else the values resolved
at the node's declared inputs in declaration order. -/
def presetRawInputs (edges : List Edge) (nodeOutputs : String → JSVal)
    (node : Node) (inputs : String → JSVal) : List JSVal :=
  match node.data.inputs.find? (fun i => decide (i.id = node.id ++ "-input-multi-image")) with
  | some mi =>
    (edges.filter (fun e =>
       decide (e.targetNodeId = node.id ∧ e.targetHandleId = mi.id))).map
      (fun e => nodeOutputs e.sourceHandleId)
  | none => node.data.inputs.map (fun i => inputs i.id)

/-- The shared tail of the `PROMPT_PRESET` dispatch: decode the raw values,
require at least one image and a non-empty template, call the preset
transform, check the result, append a history item. -/
def dispatchPreset (o : Oracle) (node : Node) (raw : List JSVal)
    (st : EngineState) : Except String (JSVal × EngineState) :=
  let imageFiles := raw.filterMap processImageInput
  if !imageFiles.isEmpty && promptTruthy node.data.prompt then
    let promptStr := node.data.prompt.getD ""
    let r := executePreset o imageFiles promptStr st.trace
    match r.1.1 with
    | some b =>
      if b == "" then .error (errTextOr r.1.2 "Preset failed to produce an image.")
      else
        let dataUrl := "data:" ++ (imageFiles.headD ("", "")).2 ++ ";base64," ++ b
        let item : HistoryItem :=
          { id := "", type := "image", dataUrl := dataUrl, prompt := .str promptStr }
        .ok (.imageText (.str dataUrl) (optStrToVal r.1.2),
             { st with trace := r.2, history := item :: st.history })
    | none => .error (errTextOr r.1.2 "Preset failed to produce an image.")
  else .error ("Missing required inputs for preset: " ++ node.data.label)

/-- The `switch (node.type)` of `runWorkflow`: compute the node's output
value or throw (`Except.error` carries the thrown `Error`'s message).  The
state records history prepends and the call trace; the node map itself is
not touched here. -/
def dispatchNode (o : Oracle) (edges : List Edge) (node : Node)
    (inputs : String → JSVal) (st : EngineState) :
    Except String (JSVal × EngineState) :=
  match node.type with
  | .TEXT_INPUT => .ok (node.data.content, st)
  | .IMAGE_INPUT => .ok (node.data.content, st)
  | .TEXT_GENERATOR =>
    let prompt := inputs (node.id ++ "-input")
    let r := generateText o prompt st.trace
    .ok (.str r.1, { st with trace := r.2 })
  | .IMAGE_EDITOR =>
    let imageInput := inputs (node.id ++ "-input-image")
    let textInput := inputs (node.id ++ "-input-text")
    if !truthy textInput then
      .error "A text prompt is required for image generation/editing."
    else
      match processImageInput imageInput with
      | some (data, mime) =>
        let r := editImage o data mime textInput st.trace
        (match r.1.1 with
         | some b =>
           if b == "" then .error (errTextOr r.1.2 "Image editing failed to produce an image.")
           else
             let dataUrl := "data:" ++ mime ++ ";base64," ++ b
             let item : HistoryItem :=
               { id := "", type := "image", dataUrl := dataUrl, prompt := textInput }
             .ok (.imageText (.str dataUrl) (optStrToVal r.1.2),
                  { st with trace := r.2, history := item :: st.history })
         | none => .error (errTextOr r.1.2 "Image editing failed to produce an image."))
      | none =>
        let r := generateImage o textInput st.trace
        if strStarts r.1 "data:image" then
          let item : HistoryItem :=
            { id := "", type := "image", dataUrl := r.1, prompt := textInput }
          .ok (.imageText (.str r.1) .null,
               { st with trace := r.2, history := item :: st.history })
        else .error (if r.1 == "" then "Image generation failed." else r.1)
  | .PROMPT_PRESET =>
    dispatchPreset o node (presetRawInputs edges st.nodeOutputs node inputs) st
  | .VIDEO_GENERATOR =>
    let imageFile := processImageInput (inputs (node.id ++ "-input-image"))
    let textInput := inputs (node.id ++ "-input-text")
    let r := generateVideo o imageFile textInput st.trace
    .ok (.str r.1, { st with trace := r.2 })
  | .OUTPUT_DISPLAY => .ok (inputs (node.id ++ "-input"), st)

/-- Output routing on success: editor/preset nodes with a structured
`{image, text}` output give each output port the field matching its type;
every other output routes the raw value to all ports. -/
def routeOutputs (node : Node) (output : JSVal) (outs : String → JSVal) :
    String → JSVal :=
  node.data.outputs.foldl
    (fun acc op =>
      let v :=
        if (node.type = NodeType.IMAGE_EDITOR ∨ node.type = NodeType.PROMPT_PRESET) then
          match output with
          | .imageText img txt => if op.type = PortType.image then img else txt
          | _ => output
        else output
      fun h => if h = op.id then v else acc h)
    outs

/-- Mark a node Processing with the `{progress: 'Starting...'}` placeholder. -/
def markProcessing (st : EngineState) (nodeId : String) : EngineState :=
  { st with nodes := (setNodeData st.nodes nodeId
      (fun d => { d with status := .PROCESSING, content := .progress "Starting..." })) }

/-- One iteration of the `for (const nodeId of executionOrder)` loop.  The
boolean is `true` when the loop continues and `false` when the `catch`
aborted the whole run (the node-not-found branch is unreachable for orders
produced by the scheduler). -/
def execNode (o : Oracle) (edges : List Edge) (nodeId : String)
    (st : EngineState) : EngineState × Bool :=
  match lookupNode st nodeId with
  | none => (st, false)
  | some node =>
    let inputs := resolveInputs edges st.nodeOutputs nodeId
    if node.data.isMuted then
      let st1 := { st with nodes := (setNodeData st.nodes nodeId
          (fun d => { d with status := .COMPLETED })) }
      match node.data.inputs.head? with
      | some firstInput =>
        ({ st1 with nodeOutputs :=
             (writeOutputs st1.nodeOutputs node.data.outputs (inputs firstInput.id)) },
         true)
      | none => (st1, true)
    else
      let st1 := markProcessing st nodeId
      match dispatchNode o edges node inputs st1 with
      | .ok (output, st2) =>
        let st3 := { st2 with nodes := (setNodeData st2.nodes nodeId
            (fun d => { d with status := .COMPLETED, content := output })) }
        ({ st3 with nodeOutputs := routeOutputs node output st3.nodeOutputs }, true)
      | .error msg =>
        ({ st1 with nodes := (setNodeData st1.nodes nodeId
            (fun d => { d with status := .ERROR, errorMessage := some msg })) },
         false)

/-- The execution loop: run nodes in order, stopping at the first abort. -/
def execNodes (o : Oracle) (edges : List Edge) :
    List String → EngineState → EngineState
  | [], st => st
  | nodeId :: rest, st =>
    let r := execNode o edges nodeId st
    if r.2 then execNodes o edges rest r.1 else r.1

/-- Specification helper: the state after executing a list of nodes when
every one of them continued, `none` if some node aborted. -/
def execNodesTrack (o : Oracle) (edges : List Edge) :
    List String → EngineState → Option EngineState
  | [], st => some st
  | nodeId :: rest, st =>
    let r := execNode o edges nodeId st
    if r.2 then execNodesTrack o edges rest r.1 else none

/-- The reset at the top of `runWorkflow`: every status to Idle, error
messages cleared, content cleared except for Text/Image input nodes. -/
def resetNodes (nodes : List (String × Node)) : List (String × Node) :=
  nodes.map (fun p =>
    (p.1, { p.2 with data := { p.2.data with
      status := .IDLE
      errorMessage := none
      content :=
        if p.2.type = NodeType.TEXT_INPUT ∨ p.2.type = NodeType.IMAGE_INPUT then
          p.2.data.content
        else .null } }))

/-- The state at the start of the execution loop. -/
def initState (nodes0 : List (String × Node)) (history0 : List HistoryItem) :
    EngineState :=
  { nodes := resetNodes nodes0
    history := history0
    nodeOutputs := fun _ => .undef
    trace := [] }

/-- Outcome of `runWorkflow`: `crashed` models the scheduling-phase
`TypeError` (the promise rejects before any node executes; the state is the
post-reset state), `finished` is the state after the execution loop ended
(all nodes done or halted at the first error node). -/
inductive RunOutcome where
  | crashed (msg : String) (st : EngineState)
  | finished (st : EngineState)

/-- `runWorkflow`: reset, schedule, execute. -/
def runWorkflow (o : Oracle) (nodes0 : List (String × Node))
    (history0 : List HistoryItem) (edges : List Edge) : RunOutcome :=
  let st0 := initState nodes0 history0
  match kahnOrder (st0.nodes.map (·.1)) edges with
  | .error msg => .crashed msg st0
  | .ok order => .finished (execNodes o edges order st0)

/-- Status of a node in a state (for claim statements). -/
def statusOf (st : EngineState) (nodeId : String) : Option NodeStatus :=
  (lookupNode st nodeId).map (·.data.status)

/-- Content of a node in a state. -/
def contentOf (st : EngineState) (nodeId : String) : Option JSVal :=
  (lookupNode st nodeId).map (·.data.content)

/-- Error message of a node in a state. -/
def errMsgOf (st : EngineState) (nodeId : String) : Option (Option String) :=
  (lookupNode st nodeId).map (·.data.errorMessage)

/-! ### Port compatibility and auto-routing (`handleMouseUp`) -/

/-- `sourceType === input.type || input.type === 'any' || sourceType === 'any'`. -/
def isCompatible (sourceType targetType : PortType) : Bool :=
  sourceType == targetType || targetType == PortType.any || sourceType == PortType.any

/-- `targetNode.type === NodeType.PROMPT_PRESET && handleId.endsWith('-input-multi-image')`. -/
def isMultiImageHandle (targetNode : Node) (handleId : String) : Bool :=
  targetNode.type == NodeType.PROMPT_PRESET && strEnds handleId "-input-multi-image"

/-- `Object.values(edges).some(e => e.targetNodeId === t && e.targetHandleId === h)`. -/
def isAlreadyConnected (edges : List Edge) (targetNodeId handleId : String) : Bool :=
  edges.any (fun e => decide (e.targetNodeId = targetNodeId ∧ e.targetHandleId = handleId))

/-- Whether one input port qualifies during the body-drop scan: type
compatible with the source, and available (unconnected or the aggregating
multi-image handle). -/
def portQualifies (edges : List Edge) (targetNode : Node) (targetNodeId : String)
    (sourceType : PortType) (input : Port) : Bool :=
  isCompatible sourceType input.type &&
    (!isAlreadyConnected edges targetNodeId input.id || isMultiImageHandle targetNode input.id)

/-- The auto-routing scan for a connection dropped on a node body: resolve
the source handle's type, guard against self-loops and missing nodes, then
return the first qualifying input port in declaration order. -/
def autoRouteTarget (nodes : List (String × Node)) (edges : List Edge)
    (sourceNodeId sourceHandleId targetNodeId : String) :
    Option (String × String) :=
  match (nodes.find? (fun p => decide (p.1 = sourceNodeId))).map (·.2) with
  | none => none
  | some sourceNode =>
    match sourceNode.data.outputs.find? (fun op => decide (op.id = sourceHandleId)) with
    | none => none
    | some sourceHandle =>
      match (nodes.find? (fun p => decide (p.1 = targetNodeId))).map (·.2) with
      | none => none
      | some targetNode =>
        if sourceNodeId = targetNodeId then none
        else
          (targetNode.data.inputs.find?
            (portQualifies edges targetNode targetNodeId sourceHandle.type)).map
            (fun input => (targetNodeId, input.id))

/-- The final check before edge creation: self-loop guard plus the repeated
availability test; returns the created edge if any. -/
def tryCreateEdge (nodes : List (String × Node)) (edges : List Edge)
    (newId sourceNodeId sourceHandleId : String)
    (target : Option (String × String)) : Option Edge :=
  match target with
  | none => none
  | some (targetNodeId, targetHandleId) =>
    if sourceNodeId = targetNodeId then none
    else
      match (nodes.find? (fun p => decide (p.1 = targetNodeId))).map (·.2) with
      | none =>
        if isAlreadyConnected edges targetNodeId targetHandleId then none
        else some ⟨newId, sourceNodeId, sourceHandleId, targetNodeId, targetHandleId⟩
      | some targetNode =>
        if !isAlreadyConnected edges targetNodeId targetHandleId ||
            isMultiImageHandle targetNode targetHandleId then
          some ⟨newId, sourceNodeId, sourceHandleId, targetNodeId, targetHandleId⟩
        else none

/-! ### Graph-theoretic vocabulary for the scheduler proofs -/

/-- Well-formed graph: every edge connects nodes present in the node map. -/
def WFGraph (nodeIds : List String) (edges : List Edge) : Prop :=
  ∀ e ∈ edges, e.sourceNodeId ∈ nodeIds ∧ e.targetNodeId ∈ nodeIds

/-- One-edge reachability. -/
def eStep (edges : List Edge) (u v : String) : Prop :=
  ∃ e ∈ edges, e.sourceNodeId = u ∧ e.targetNodeId = v

/-- A graph is acyclic when no node reaches itself through edges. -/
def Acyclic (edges : List Edge) : Prop :=
  ∀ v, ¬ Relation.TransGen (eStep edges) v v

/-- Number of edges into `v` whose source has not yet been emitted into the
execution order (the quantity `inDegree[v]` tracks during the loop). -/
def remDeg (edges : List Edge) (order : List String) (v : String) : Nat :=
  edges.countP (fun e => decide (e.targetNodeId = v ∧ e.sourceNodeId ∉ order))

/-- The adjacency list the build phase produces for node `u`: the targets of
`u`'s out-edges, in edge insertion order. -/
def targetsOf (edges : List Edge) (u : String) : List String :=
  (edges.filter (fun e => decide (e.sourceNodeId = u))).map (fun e => e.targetNodeId)

/-- Total number of edges into `v` (the initial in-degree). -/
def countTgt (edges : List Edge) (v : String) : Nat :=
  edges.countP (fun e => decide (e.targetNodeId = v))

/-- Whether processing the adjacency list `vs` with current in-degrees `deg`
appends `x` to the queue: its degree is an integer that the decrements of
`vs` drive exactly to 0. -/
def fires (deg : String → Option Int) (vs : List String) (x : String) : Bool :=
  match deg x with
  | some n => decide (1 ≤ n ∧ n ≤ (cnt x vs : Int))
  | none => false

/-- Loop invariant of Kahn's algorithm as implemented in `runWorkflow`:
emitted `order` plus pending `queue` never repeat a node and stay inside
the node set; `deg` is `remDeg` on node keys and `none` elsewhere; nodes
neither emitted nor pending still have positive remaining in-degree;
pending nodes have remaining in-degree 0; and every edge whose target was
emitted has its source emitted earlier. -/
structure KahnInv (nodeIds : List String) (edges : List Edge)
    (deg : String → Option Int) (queue order : List String) : Prop where
  cntB : ∀ x, cnt x (order ++ queue) ≤ 1
  subset : ∀ x ∈ order ++ queue, x ∈ nodeIds
  degEq : ∀ v, deg v = if v ∈ nodeIds then some ((remDeg edges order v : Int)) else none
  blocked : ∀ v ∈ nodeIds, v ∉ order → v ∉ queue → 0 < remDeg edges order v
  ready : ∀ v ∈ queue, remDeg edges order v = 0
  sound : ∀ e ∈ edges, e.targetNodeId ∈ order →
    ∃ l1 l2, order = l1 ++ e.targetNodeId :: l2 ∧ e.sourceNodeId ∈ l1

theorem countP_split (l : List α) (p q : α → Bool) :
    l.countP p = l.countP (fun a => p a && q a) + l.countP (fun a => p a && !q a) := by
  induction l with
  | nil => rfl
  | cons a as ih =>
    simp only [List.countP_cons]
    cases hp : p a <;> cases hq : q a <;> simp [hp, hq] <;> omega

theorem cnt_targetsOf (edges : List Edge) (u v : String) :
    cnt v (targetsOf edges u) =
      edges.countP (fun e => decide (e.targetNodeId = v) && decide (e.sourceNodeId = u)) := by
  unfold cnt targetsOf
  rw [List.countP_map, List.countP_filter]
  rfl

theorem remDeg_nil_order (edges : List Edge) (v : String) :
    remDeg edges [] v = countTgt edges v := by
  unfold remDeg countTgt
  congr 1
  funext e
  simp

/-- Emitting `u` lowers each remaining in-degree by the number of edges from
`u`, provided `u` had not been emitted yet. -/
theorem remDeg_append (edges : List Edge) (order : List String) (u v : String)
    (hu : u ∉ order) :
    remDeg edges order v = remDeg edges (order ++ [u]) v + cnt v (targetsOf edges u) := by
  rw [cnt_targetsOf]
  unfold remDeg
  rw [countP_split edges
    (fun e => decide (e.targetNodeId = v ∧ e.sourceNodeId ∉ order))
    (fun e => decide (e.sourceNodeId = u))]
  have h1 : ∀ e : Edge,
      ((decide (e.targetNodeId = v ∧ e.sourceNodeId ∉ order) &&
        !decide (e.sourceNodeId = u)) =
       decide (e.targetNodeId = v ∧ e.sourceNodeId ∉ order ++ [u])) := by
    intro e
    by_cases h₁ : e.targetNodeId = v <;> by_cases h₂ : e.sourceNodeId ∈ order <;>
      by_cases h₃ : e.sourceNodeId = u <;> simp [h₁, h₂, h₃]
  have h2 : ∀ e : Edge,
      ((decide (e.targetNodeId = v ∧ e.sourceNodeId ∉ order) &&
        decide (e.sourceNodeId = u)) =
       (decide (e.targetNodeId = v) && decide (e.sourceNodeId = u))) := by
    intro e
    by_cases h₁ : e.targetNodeId = v <;> by_cases h₃ : e.sourceNodeId = u <;>
      simp [h₁, h₃]
    exact fun hmem => hu (h₃ ▸ hmem)
  have e1 : edges.countP (fun e =>
        decide (e.targetNodeId = v ∧ e.sourceNodeId ∉ order) && !decide (e.sourceNodeId = u))
      = edges.countP (fun e => decide (e.targetNodeId = v ∧ e.sourceNodeId ∉ order ++ [u])) :=
    List.countP_congr (fun e _ => by rw [h1 e])
  have e2 : edges.countP (fun e =>
        decide (e.targetNodeId = v ∧ e.sourceNodeId ∉ order) && decide (e.sourceNodeId = u))
      = edges.countP (fun e => decide (e.targetNodeId = v) && decide (e.sourceNodeId = u)) :=
    List.countP_congr (fun e _ => by rw [h2 e])
  rw [e1, e2]
  omega

/-- Every source of an edge into `v` has been emitted iff `v`'s remaining
in-degree is 0. -/
theorem remDeg_eq_zero_iff (edges : List Edge) (order : List String) (v : String) :
    remDeg edges order v = 0 ↔
      ∀ e ∈ edges, e.targetNodeId = v → e.sourceNodeId ∈ order := by
  unfold remDeg
  rw [List.countP_eq_zero]
  constructor
  · intro h e he htgt
    by_contra hsrc
    exact h e he (by simp [htgt, hsrc])
  · intro h e he
    simp only [decide_eq_true_iff, not_and, not_not]
    exact fun htgt => h e he htgt

/-- A node already emitted has remaining in-degree 0 (its in-edges' sources
were emitted even earlier). -/
theorem remDeg_zero_of_emitted {nodeIds edges deg queue order}
    (inv : KahnInv nodeIds edges deg queue order) (v : String) (hv : v ∈ order) :
    remDeg edges order v = 0 := by
  rw [remDeg_eq_zero_iff]
  intro e he htgt
  obtain ⟨l1, l2, _, hsrc⟩ := inv.sound e he (htgt ▸ hv)
  next heq => rw [heq]; exact List.mem_append.mpr (Or.inl hsrc)

theorem processAdj_fst (vs : List String) (deg : String → Option Int)
    (queue : List String) (x : String) :
    (processAdj deg queue vs).1 x = (deg x).map (fun n => n - (cnt x vs : Int)) := by
  induction vs generalizing deg queue with
  | nil => simp [processAdj, cnt_nil]
  | cons v vs ih =>
    rw [processAdj, ih]
    by_cases hxv : x = v
    · subst hxv
      simp only [if_pos rfl, Option.map_map, cnt_cons, if_pos rfl]
      cases deg x with
      | none => simp
      | some n =>
        simp [Function.comp]
        ring_nf
    · have : v ≠ x := fun h => hxv h.symm
      simp [hxv, cnt_cons, this]

theorem fires_nil (deg : String → Option Int) (x : String) :
    fires deg [] x = false := by
  unfold fires
  cases deg x with
  | none => rfl
  | some n =>
    simp only [cnt_nil, decide_eq_false_iff_not]
    rintro ⟨h1, h2⟩
    omega

theorem processAdj_snd_cnt (vs : List String) (deg : String → Option Int)
    (queue : List String) (x : String) :
    cnt x (processAdj deg queue vs).2 =
      cnt x queue + (if fires deg vs x then 1 else 0) := by
  induction vs generalizing deg queue with
  | nil => simp [processAdj, fires_nil]
  | cons v vs ih =>
    rw [processAdj, ih]
    have hdeg1v : (fun x₁ => if x₁ = v then (deg x₁).map (fun n => n - 1) else deg x₁) v
        = (deg v).map (fun n => n - 1) := by simp
    by_cases hxv : x = v
    · subst hxv
      cases hd : deg x with
      | none =>
        simp only [hdeg1v, hd, Option.map_none']
        have hf1 : fires (fun x₁ => if x₁ = x then (deg x₁).map (fun n => n - 1) else deg x₁) vs x
            = false := by
          unfold fires
          simp [hd]
        have hf2 : fires deg (x :: vs) x = false := by
          unfold fires
          simp [hd]
        simp [hf1, hf2]
      | some n =>
        simp only [hdeg1v, hd, Option.map_some']
        have hf1 : fires (fun x₁ => if x₁ = x then (deg x₁).map (fun n => n - 1) else deg x₁) vs x
            = decide (1 ≤ n - 1 ∧ n - 1 ≤ (cnt x vs : Int)) := by
          unfold fires
          simp [hd]
        have hf2 : fires deg (x :: vs) x
            = decide (1 ≤ n ∧ n ≤ (cnt x vs : Int) + 1) := by
          unfold fires
          rw [hd]
          apply decide_eq_decide.mpr
          rw [cnt_cons]
          simp
        rw [hf1, hf2]
        simp only [decide_eq_true_eq, if_true]
        have hcnt1 : cnt x (queue ++ [x]) = cnt x queue + 1 := by
          rw [cnt_append, cnt_cons, cnt_nil]
          simp
        by_cases hn : (some (n - 1) : Option Int) = some 0
        · rw [if_pos hn, hcnt1]
          have h0 : n - 1 = 0 := by simpa using hn
          split_ifs <;> omega
        · rw [if_neg hn]
          have h0 : ¬ (n - 1 = 0) := by simpa using hn
          split_ifs <;> omega
    · have hvx : v ≠ x := fun h => hxv h.symm
      have hdx : (fun x₁ => if x₁ = v then (deg x₁).map (fun n => n - 1) else deg x₁) x
          = deg x := by simp [hxv]
      have hf : fires (fun x₁ => if x₁ = v then (deg x₁).map (fun n => n - 1) else deg x₁) vs x
          = fires deg (v :: vs) x := by
        unfold fires
        rw [hdx, cnt_cons]
        simp [hvx]
      rw [hf]
      simp only [hdeg1v]
      split_ifs <;> simp [cnt_append, cnt_cons, cnt_nil, hvx]

theorem cnt_le_one_nodup {l : List String} (h : ∀ x, cnt x l ≤ 1) : l.Nodup := by
  induction l with
  | nil => simp
  | cons a as ih =>
    rw [List.nodup_cons]
    constructor
    · intro hmem
      have h1 := h a
      rw [cnt_cons] at h1
      have h2 := (cnt_pos_iff_mem a as).mpr hmem
      simp at h1
      omega
    · exact ih (fun x => by have := h x; rw [cnt_cons] at this; omega)

theorem cnt_filter_le (x : String) (p : String → Bool) (l : List String) :
    cnt x (l.filter p) ≤ cnt x l := by
  induction l with
  | nil => simp
  | cons a as ih =>
    rw [List.filter_cons]
    by_cases hp : p a
    · simp only [hp, if_true, cnt_cons]
      omega
    · simp only [hp]
      rw [cnt_cons]
      simp only [Bool.false_eq_true, if_false]
      omega

/-- Characterisation of the adjacency/in-degree build loop: it succeeds iff
every edge's source key is present in the accumulator, and then extends each
adjacency list with the out-targets in edge order and bumps each in-degree by
the number of incoming edges. -/
theorem buildPhase_char (edges : List Edge) :
    ∀ (adj : String → Option (List String)) (deg : String → Option Int),
    (∀ e ∈ edges, (adj e.sourceNodeId).isSome) →
    ∃ adj' deg', buildPhase adj deg edges = .ok (adj', deg') ∧
      (∀ v, adj' v = (adj v).map (· ++ targetsOf edges v)) ∧
      (∀ v, deg' v = (deg v).map (· + (countTgt edges v : Int))) := by
  induction edges with
  | nil =>
    intro adj deg _
    refine ⟨adj, deg, rfl, fun v => ?_, fun v => ?_⟩
    · simp [targetsOf]
    · simp [countTgt]
  | cons e rest ih =>
    intro adj deg h
    obtain ⟨l, hl⟩ := Option.isSome_iff_exists.mp (h e (List.mem_cons_self e rest))
    have hpre : ∀ e' ∈ rest,
        ((fun v => if v = e.sourceNodeId then some (l ++ [e.targetNodeId]) else adj v)
          e'.sourceNodeId).isSome := by
      intro e' he'
      by_cases hv : e'.sourceNodeId = e.sourceNodeId
      · simp [hv]
      · simpa [hv] using h e' (List.mem_cons_of_mem e he')
    obtain ⟨adj', deg', heq, hadj, hdeg⟩ :=
      ih (fun v => if v = e.sourceNodeId then some (l ++ [e.targetNodeId]) else adj v)
        (fun v => if v = e.targetNodeId then (deg v).map (· + 1) else deg v) hpre
    refine ⟨adj', deg', ?_, fun v => ?_, fun v => ?_⟩
    · rw [buildPhase, hl]
      exact heq
    · rw [hadj v]
      by_cases hv : v = e.sourceNodeId
      · rw [hv]
        have ht : targetsOf (e :: rest) e.sourceNodeId
            = e.targetNodeId :: targetsOf rest e.sourceNodeId := by
          simp [targetsOf, List.filter_cons]
        simp [hl, ht, List.append_assoc]
      · have ht : targetsOf (e :: rest) v = targetsOf rest v := by
          have hne : ¬ (e.sourceNodeId = v) := fun hc => hv hc.symm
          simp [targetsOf, List.filter_cons, hne]
        simp [hv, ht]
    · rw [hdeg v]
      by_cases hv : v = e.targetNodeId
      · rw [hv]
        have hc : countTgt (e :: rest) e.targetNodeId = countTgt rest e.targetNodeId + 1 := by
          simp [countTgt, List.countP_cons]
        cases hdv : deg e.targetNodeId with
        | none => simp [hdv]
        | some n =>
          simp [hdv, hc]
          ring
      · have hc : countTgt (e :: rest) v = countTgt rest v := by
          have hne : ¬ (e.targetNodeId = v) := fun hc => hv hc.symm
          simp [countTgt, List.countP_cons, hne]
        simp [hc, hv]

/-- Preservation of the Kahn invariant by one iteration of the while loop:
dequeue `u`, emit it, decrement its targets' in-degrees, enqueue the nodes
that reach 0. -/
theorem kahnInv_step {nodeIds : List String} {edges : List Edge}
    {deg : String → Option Int} {u : String} {rest order : List String}
    (inv : KahnInv nodeIds edges deg (u :: rest) order) :
    KahnInv nodeIds edges
      (processAdj deg rest (targetsOf edges u)).1
      (processAdj deg rest (targetsOf edges u)).2
      (order ++ [u]) := by
  set vs := targetsOf edges u with hvs
  have hu_mem_q : u ∈ u :: rest := List.mem_cons_self u rest
  have hu_nodeIds : u ∈ nodeIds := inv.subset u (List.mem_append.mpr (Or.inr hu_mem_q))
  have hcntu := inv.cntB u
  rw [cnt_append, cnt_cons] at hcntu
  simp only [if_pos rfl, if_true] at hcntu
  have hu_not_order : u ∉ order := by
    rw [← cnt_eq_zero_iff_not_mem]
    omega
  have hreadyu : remDeg edges order u = 0 := inv.ready u hu_mem_q
  have hrem : ∀ x, remDeg edges order x = remDeg edges (order ++ [u]) x + cnt x vs :=
    fun x => remDeg_append edges order u x hu_not_order
  have hfiresIff : ∀ x, fires deg vs x = true ↔
      x ∈ nodeIds ∧ 1 ≤ remDeg edges order x ∧ remDeg edges (order ++ [u]) x = 0 := by
    intro x
    unfold fires
    rw [inv.degEq x]
    by_cases hx : x ∈ nodeIds
    · simp only [if_pos hx, decide_eq_true_eq]
      have hx' := hrem x
      constructor
      · rintro ⟨h1, h2⟩
        exact ⟨hx, by omega, by omega⟩
      · rintro ⟨_, h1, h2⟩
        constructor <;> omega
    · simp [hx]
  have hsnd : ∀ x, cnt x (processAdj deg rest vs).2
      = cnt x rest + (if fires deg vs x then 1 else 0) :=
    fun x => processAdj_snd_cnt vs deg rest x
  have hq'mem : ∀ x, x ∈ (processAdj deg rest vs).2 ↔
      x ∈ rest ∨ fires deg vs x = true := by
    intro x
    have h := hsnd x
    constructor
    · intro hx
      have hpos : 0 < cnt x (processAdj deg rest vs).2 := (cnt_pos_iff_mem _ _).mpr hx
      by_cases hf : fires deg vs x = true
      · exact Or.inr hf
      · left
        rw [← cnt_pos_iff_mem]
        simp [hf] at h
        omega
    · intro hx
      rw [← cnt_pos_iff_mem, h]
      rcases hx with hx | hx
      · have := (cnt_pos_iff_mem x rest).mpr hx
        omega
      · simp only [hx, if_true]
        omega
  have hzero_order : ∀ v ∈ order, remDeg edges order v = 0 :=
    fun v hv => remDeg_zero_of_emitted inv v hv
  have hzero_rest : ∀ v ∈ rest, remDeg edges order v = 0 :=
    fun v hv => inv.ready v (List.mem_cons_of_mem u hv)
  have hfresh : ∀ x, fires deg vs x = true → x ∉ order ∧ x ≠ u ∧ x ∉ rest := by
    intro x hf
    obtain ⟨hxN, h1, h2⟩ := (hfiresIff x).mp hf
    refine ⟨fun hc => ?_, fun hc => ?_, fun hc => ?_⟩
    · have := hzero_order x hc
      omega
    · subst hc
      omega
    · have := hzero_rest x hc
      omega
  refine { cntB := ?_, subset := ?_, degEq := ?_, blocked := ?_, ready := ?_, sound := ?_ }
  · intro x
    have hold := inv.cntB x
    rw [cnt_append, cnt_cons] at hold
    rw [cnt_append, cnt_append, cnt_cons, cnt_nil, hsnd x]
    by_cases hux : u = x
    · subst hux
      have hfu : ¬ (fires deg vs u = true) := by
        intro hf
        obtain ⟨_, h1, _⟩ := (hfiresIff u).mp hf
        omega
      simp only [if_pos rfl, if_true] at hold ⊢
      simp [hfu]
      omega
    · simp only [if_neg hux] at hold ⊢
      by_cases hf : fires deg vs x = true
      · obtain ⟨hno, _, hnr⟩ := hfresh x hf
        have e1 : cnt x order = 0 := (cnt_eq_zero_iff_not_mem _ _).mpr hno
        have e2 : cnt x rest = 0 := (cnt_eq_zero_iff_not_mem _ _).mpr hnr
        simp [hf, e1, e2]
      · simp [hf]
        omega
  · intro x hx
    rw [List.mem_append] at hx
    rcases hx with hx | hx
    · rw [List.mem_append] at hx
      rcases hx with hx | hx
      · exact inv.subset x (List.mem_append.mpr (Or.inl hx))
      · simp only [List.mem_singleton] at hx
        subst hx
        exact hu_nodeIds
    · rcases (hq'mem x).mp hx with hx | hx
      · exact inv.subset x (List.mem_append.mpr (Or.inr (List.mem_cons_of_mem u hx)))
      · exact ((hfiresIff x).mp hx).1
  · intro v
    rw [processAdj_fst, inv.degEq v]
    by_cases hv : v ∈ nodeIds
    · simp only [if_pos hv, Option.map_some', Option.some.injEq]
      have := hrem v
      omega
    · simp [hv]
  · intro v hvN hvO hvQ
    have hvO' : v ∉ order := fun hc => hvO (List.mem_append.mpr (Or.inl hc))
    have hvU : v ≠ u := fun hc =>
      hvO (List.mem_append.mpr (Or.inr (by rw [hc]; exact List.mem_singleton_self u)))
    have hvR : v ∉ rest := fun hc => hvQ ((hq'mem v).mpr (Or.inl hc))
    have hvF : ¬ (fires deg vs v = true) := fun hf => hvQ ((hq'mem v).mpr (Or.inr hf))
    have hb := inv.blocked v hvN hvO' (by simp [List.mem_cons, hvU, hvR])
    by_contra hc
    push_neg at hc
    exact hvF ((hfiresIff v).mpr ⟨hvN, by omega, by omega⟩)
  · intro v hv
    rcases (hq'mem v).mp hv with hv | hv
    · have h0 := hzero_rest v hv
      have := hrem v
      omega
    · exact ((hfiresIff v).mp hv).2.2
  · intro e he htgt
    rw [List.mem_append] at htgt
    rcases htgt with htgt | htgt
    · obtain ⟨l1, l2, heq, hsrc⟩ := inv.sound e he htgt
      refine ⟨l1, l2 ++ [u], ?_, hsrc⟩
      rw [heq]
      simp [List.append_assoc]
    · simp only [List.mem_singleton] at htgt
      have hsrc : e.sourceNodeId ∈ order :=
        (remDeg_eq_zero_iff edges order u).mp hreadyu e he htgt
      exact ⟨order, [], by rw [htgt], hsrc⟩

/-- Running the while loop with enough fuel empties the queue and preserves
the invariant; any fuel at least `nodeIds.length - order.length` suffices
because every iteration emits one fresh node of `nodeIds`. -/
theorem kahnLoop_spec (nodeIds : List String) (edges : List Edge)
    (adj : String → Option (List String))
    (hadj : ∀ v ∈ nodeIds, adj v = some (targetsOf edges v)) :
    ∀ (fuel : Nat) (deg : String → Option Int) (queue order : List String),
    KahnInv nodeIds edges deg queue order →
    nodeIds.length ≤ fuel + order.length →
    (kahnLoop adj fuel deg queue order).2.2 = [] ∧
      KahnInv nodeIds edges (kahnLoop adj fuel deg queue order).2.1 []
        (kahnLoop adj fuel deg queue order).1 := by
  intro fuel
  induction fuel with
  | zero =>
    intro deg queue order inv hlen
    have hnodup : order.Nodup := cnt_le_one_nodup (fun x => by
      have h := inv.cntB x
      rw [cnt_append] at h
      omega)
    have hsub : order.toFinset ⊆ nodeIds.toFinset := by
      intro x hx
      rw [List.mem_toFinset] at hx ⊢
      exact inv.subset x (List.mem_append.mpr (Or.inl hx))
    have hcard1 : order.toFinset.card = order.length := List.toFinset_card_of_nodup hnodup
    have hcard2 : nodeIds.toFinset.card ≤ nodeIds.length := nodeIds.toFinset_card_le
    have hfeq : order.toFinset = nodeIds.toFinset := by
      apply Finset.eq_of_subset_of_card_le hsub
      simp only [Nat.zero_add] at hlen
      omega
    have hqnil : queue = [] := by
      rw [List.eq_nil_iff_forall_not_mem]
      intro q hq
      have hqN : q ∈ nodeIds := inv.subset q (List.mem_append.mpr (Or.inr hq))
      have hqO : q ∈ order := by
        rw [← List.mem_toFinset, hfeq] at *
        rw [List.mem_toFinset]
        rw [List.mem_toFinset] at hqN
        exact hqN
      have h := inv.cntB q
      rw [cnt_append] at h
      have h1 := (cnt_pos_iff_mem q order).mpr hqO
      have h2 := (cnt_pos_iff_mem q queue).mpr hq
      omega
    subst hqnil
    exact ⟨rfl, inv⟩
  | succ fuel ih =>
    intro deg queue order inv hlen
    match queue with
    | [] =>
      rw [kahnLoop]
      exact ⟨rfl, inv⟩
    | u :: rest =>
      have hu_nodeIds : u ∈ nodeIds :=
        inv.subset u (List.mem_append.mpr (Or.inr (List.mem_cons_self u rest)))
      have hadju : adj u = some (targetsOf edges u) := hadj u hu_nodeIds
      have hstep := kahnInv_step inv
      have hlen' : nodeIds.length ≤ fuel + (order ++ [u]).length := by
        rw [List.length_append]
        simp only [List.length_singleton]
        omega
      have := ih (processAdj deg rest (targetsOf edges u)).1
        (processAdj deg rest (targetsOf edges u)).2 (order ++ [u]) hstep hlen'
      rw [kahnLoop, hadju]
      exact this

/-- The scheduling phase on a graph whose node keys are distinct and whose
edges touch only present nodes: it succeeds, and its output order satisfies
the Kahn invariant with an empty residual queue. -/
theorem kahnOrder_spec (nodeIds : List String) (edges : List Edge)
    (hN : nodeIds.Nodup) (hWF : WFGraph nodeIds edges) :
    ∃ order degF, kahnOrder nodeIds edges = .ok order ∧
      KahnInv nodeIds edges degF [] order := by
  obtain ⟨adj', deg', hok, hadj, hdeg⟩ :=
    buildPhase_char edges (initAdj nodeIds) (initDeg nodeIds)
      (fun e he => by simp [initAdj, (hWF e he).1])
  have hadj' : ∀ v ∈ nodeIds, adj' v = some (targetsOf edges v) := by
    intro v hv
    rw [hadj v]
    simp [initAdj, hv]
  have hdeg' : ∀ v, deg' v =
      if v ∈ nodeIds then some ((countTgt edges v : Int)) else none := by
    intro v
    rw [hdeg v]
    by_cases hv : v ∈ nodeIds <;> simp [initDeg, hv]
  have hqmem : ∀ v, v ∈ nodeIds.filter (fun id => decide (deg' id = some 0)) ↔
      v ∈ nodeIds ∧ countTgt edges v = 0 := by
    intro v
    rw [List.mem_filter, decide_eq_true_iff]
    constructor
    · rintro ⟨hv, hd⟩
      rw [hdeg' v, if_pos hv] at hd
      simp only [Option.some.injEq] at hd
      exact ⟨hv, by omega⟩
    · rintro ⟨hv, hd⟩
      refine ⟨hv, ?_⟩
      rw [hdeg' v, if_pos hv, hd]
      simp
  have hinv : KahnInv nodeIds edges deg'
      (nodeIds.filter (fun id => decide (deg' id = some 0))) [] := by
    refine { cntB := ?_, subset := ?_, degEq := ?_, blocked := ?_, ready := ?_,
             sound := ?_ }
    · intro x
      rw [List.nil_append]
      exact le_trans (cnt_filter_le x _ nodeIds) (nodup_cnt_le_one hN x)
    · intro x hx
      rw [List.nil_append] at hx
      exact ((hqmem x).mp hx).1
    · intro v
      rw [hdeg' v, remDeg_nil_order]
    · intro v hvN _ hvQ
      have : ¬ (countTgt edges v = 0) := fun hc => hvQ ((hqmem v).mpr ⟨hvN, hc⟩)
      rw [remDeg_nil_order]
      omega
    · intro v hv
      rw [remDeg_nil_order]
      exact ((hqmem v).mp hv).2
    · intro e _ htgt
      exact absurd htgt (List.not_mem_nil _)
  have hloop := kahnLoop_spec nodeIds edges adj' hadj' nodeIds.length deg'
    (nodeIds.filter (fun id => decide (deg' id = some 0))) [] hinv
    (by simp)
  refine ⟨(kahnLoop adj' nodeIds.length deg'
      (nodeIds.filter (fun id => decide (deg' id = some 0))) []).1,
    (kahnLoop adj' nodeIds.length deg'
      (nodeIds.filter (fun id => decide (deg' id = some 0))) []).2.1, ?_, hloop.2⟩
  rw [kahnOrder, hok]

/-- `x` occurs strictly before `y` in a duplicate-free list split around `y`. -/
theorem indexOf_lt_of_split (order l1 l2 : List String) (x y : String)
    (heq : order = l1 ++ y :: l2) (hnd : order.Nodup) (hx : x ∈ l1) :
    order.indexOf x < order.indexOf y := by
  subst heq
  induction l1 with
  | nil => exact absurd hx (List.not_mem_nil x)
  | cons a l1' ih =>
    rw [List.cons_append] at hnd ⊢
    have hya : a ≠ y := by
      intro hc
      exact (List.nodup_cons.mp hnd).1 (by rw [hc]; simp)
    by_cases hxa : x = a
    · rw [hxa, List.indexOf_cons_self, List.indexOf_cons_ne _ hya]
      omega
    · have hxa' : a ≠ x := fun hc => hxa hc.symm
      rw [List.indexOf_cons_ne _ hxa', List.indexOf_cons_ne _ hya]
      have hnd' : (l1' ++ y :: l2).Nodup := (List.nodup_cons.mp hnd).2
      have hx' : x ∈ l1' := by
        rcases List.mem_cons.mp hx with h | h
        · exact absurd h hxa
        · exact h
      have := ih hx' hnd'
      omega

/-- In a final state of the loop, a node reachable (in one or more steps)
into an emitted node was emitted strictly earlier. -/
theorem emitted_before_of_reaches {nodeIds edges degF order}
    (inv : KahnInv nodeIds edges degF [] order) :
    ∀ u v, Relation.TransGen (eStep edges) u v → v ∈ order →
      u ∈ order ∧ order.indexOf u < order.indexOf v := by
  have hnd : order.Nodup := cnt_le_one_nodup (fun x => by
    have h := inv.cntB x
    rw [cnt_append, cnt_nil] at h
    omega)
  intro u v h hv
  induction h with
  | single hstep =>
    obtain ⟨e, he, hsrc, htgt⟩ := hstep
    obtain ⟨l1, l2, heq, hmem⟩ := inv.sound e he (htgt ▸ hv)
    refine ⟨?_, ?_⟩
    · rw [← hsrc, heq]
      exact List.mem_append.mpr (Or.inl hmem)
    · rw [← hsrc, ← htgt]
      exact indexOf_lt_of_split order l1 l2 _ _ heq hnd hmem
  | tail hub hstep ih =>
    obtain ⟨e, he, hsrc, htgt⟩ := hstep
    obtain ⟨l1, l2, heq, hmem⟩ := inv.sound e he (htgt ▸ hv)
    have hb_mem : e.sourceNodeId ∈ order := by
      rw [heq]
      exact List.mem_append.mpr (Or.inl hmem)
    have hb_lt : order.indexOf e.sourceNodeId < order.indexOf e.targetNodeId :=
      indexOf_lt_of_split order l1 l2 _ _ heq hnd hmem
    obtain ⟨hu_mem, hu_lt⟩ := ih (hsrc ▸ hb_mem)
    refine ⟨hu_mem, ?_⟩
    rw [← htgt]
    refine lt_trans ?_ hb_lt
    rw [hsrc]
    exact hu_lt

/-- A node lying on a cycle is never emitted by the scheduler. -/
theorem cycle_not_emitted {nodeIds edges degF order}
    (inv : KahnInv nodeIds edges degF [] order) :
    ∀ v, Relation.TransGen (eStep edges) v v → v ∉ order := by
  intro v hcyc hv
  obtain ⟨_, hlt⟩ := emitted_before_of_reaches inv v v hcyc hv
  omega

/-- Pigeonhole chain argument: in a finite set where every member has an
in-neighbour inside the set, every member is reachable from a cycle lying in
the set. -/
theorem cycle_of_all_have_pred (edges : List Edge) (S : List String)
    (hpred : ∀ v ∈ S, ∃ u ∈ S, eStep edges u v) :
    ∀ v0 ∈ S, ∃ w, Relation.TransGen (eStep edges) w w ∧
      Relation.ReflTransGen (eStep edges) w v0 := by
  intro v0 hv0
  choose f hfS hfStep using hpred
  let c : ℕ → {v // v ∈ S} := fun n =>
    Nat.rec ⟨v0, hv0⟩ (fun _ prev => ⟨f prev.1 prev.2, hfS prev.1 prev.2⟩) n
  have hstep : ∀ n, eStep edges (c (n + 1)).1 (c n).1 := fun n => hfStep (c n).1 (c n).2
  have hdown : ∀ d i, Relation.TransGen (eStep edges) (c (i + d + 1)).1 (c i).1 := by
    intro d
    induction d with
    | zero => exact fun i => Relation.TransGen.single (hstep i)
    | succ d ih =>
      intro i
      exact Relation.TransGen.head (hstep (i + d + 1)) (ih i)
  have hup : ∀ n, Relation.ReflTransGen (eStep edges) (c n).1 (c 0).1 := by
    intro n
    induction n with
    | zero => exact Relation.ReflTransGen.refl
    | succ n ih => exact Relation.ReflTransGen.head (hstep n) ih
  have hfin : Finite {v // v ∈ S} := S.finite_toSet.to_subtype
  obtain ⟨i, j, hne, hceq⟩ := Finite.exists_ne_map_eq_of_infinite c
  rcases Nat.lt_or_ge i j with hij | hij
  · obtain ⟨d, rfl⟩ : ∃ d, j = i + d + 1 := ⟨j - i - 1, by omega⟩
    refine ⟨(c i).1, ?_, hup i⟩
    have := hdown d i
    rw [← hceq] at this
    exact this
  · have hji : j < i := lt_of_le_of_ne hij (fun hc => hne hc.symm)
    obtain ⟨d, rfl⟩ : ∃ d, i = j + d + 1 := ⟨i - j - 1, by omega⟩
    refine ⟨(c j).1, ?_, hup j⟩
    have := hdown d j
    rw [hceq] at this
    exact this

/-- Any present node missing from the final order is reachable from a cycle. -/
theorem missing_reachable_from_cycle {nodeIds edges degF order}
    (hWF : WFGraph nodeIds edges)
    (inv : KahnInv nodeIds edges degF [] order) :
    ∀ v ∈ nodeIds, v ∉ order → ∃ w, Relation.TransGen (eStep edges) w w ∧
      Relation.ReflTransGen (eStep edges) w v := by
  intro v hvN hvO
  have hpred : ∀ x ∈ nodeIds.filter (fun y => decide (y ∉ order)),
      ∃ u ∈ nodeIds.filter (fun y => decide (y ∉ order)), eStep edges u x := by
    intro x hx
    rw [List.mem_filter, decide_eq_true_iff] at hx
    have hpos := inv.blocked x hx.1 hx.2 (List.not_mem_nil x)
    rw [remDeg] at hpos
    rw [List.countP_pos_iff] at hpos
    obtain ⟨e, he, hp⟩ := hpos
    rw [decide_eq_true_iff] at hp
    refine ⟨e.sourceNodeId, ?_, ⟨e, he, rfl, hp.1⟩⟩
    rw [List.mem_filter, decide_eq_true_iff]
    exact ⟨(hWF e he).1, hp.2⟩
  exact cycle_of_all_have_pred edges _ hpred v
    (by rw [List.mem_filter, decide_eq_true_iff]; exact ⟨hvN, hvO⟩)

/-- On an acyclic graph every present node is emitted. -/
theorem acyclic_all_emitted {nodeIds edges degF order}
    (hWF : WFGraph nodeIds edges) (hA : Acyclic edges)
    (inv : KahnInv nodeIds edges degF [] order) :
    ∀ v ∈ nodeIds, v ∈ order := by
  intro v hvN
  by_contra hvO
  obtain ⟨w, hww, _⟩ := missing_reachable_from_cycle hWF inv v hvN hvO
  exact hA w hww

/-- A graph admitting a strictly increasing rank along edges is acyclic. -/
theorem acyclic_of_rank (edges : List Edge) (r : String → Nat)
    (h : ∀ e ∈ edges, r e.sourceNodeId < r e.targetNodeId) : Acyclic edges := by
  have hstep : ∀ u v, eStep edges u v → r u < r v := by
    rintro u v ⟨e, he, rfl, rfl⟩
    exact h e he
  have htrans : ∀ u v, Relation.TransGen (eStep edges) u v → r u < r v := by
    intro u v h'
    induction h' with
    | single h1 => exact hstep _ _ h1
    | tail _ h2 ih => exact lt_trans ih (hstep _ _ h2)
  intro v hv
  exact lt_irrefl _ (htrans v v hv)

/-- Head decomposition of a transitive chain. -/
theorem transGen_head {α} (r : α → α → Prop) (a c : α)
    (h : Relation.TransGen r a c) : ∃ b, r a b ∧ Relation.ReflTransGen r b c := by
  induction h using Relation.TransGen.head_induction_on with
  | base h1 => exact ⟨_, h1, .refl⟩
  | ih h1 h2 _ => exact ⟨_, h1, h2.to_reflTransGen⟩

/-- A node with no outgoing edge lies on no cycle. -/
theorem no_cycle_of_no_out (edges : List Edge) (v : String)
    (h : ∀ e ∈ edges, e.sourceNodeId ≠ v) :
    ¬ Relation.TransGen (eStep edges) v v := by
  intro hc
  obtain ⟨b, ⟨e, he, hsrc, _⟩, _⟩ := transGen_head _ _ _ hc
  exact h e he hsrc

/-- C1: for every well-formed acyclic graph, the order computed by
`runWorkflow`'s Kahn scheduler is a valid topological order: the scheduling
phase succeeds, every node of the graph appears in the order exactly once,
nothing else appears, and for every edge the source appears strictly before
the target. -/
theorem kahn_topological_order (nodeIds : List String) (edges : List Edge)
    (hN : nodeIds.Nodup) (hWF : WFGraph nodeIds edges) (hA : Acyclic edges) :
    ∃ order, kahnOrder nodeIds edges = .ok order ∧
      (∀ v, v ∈ order ↔ v ∈ nodeIds) ∧
      (∀ v ∈ nodeIds, cnt v order = 1) ∧
      (∀ e ∈ edges, e.sourceNodeId ∈ order ∧ e.targetNodeId ∈ order ∧
        order.indexOf e.sourceNodeId < order.indexOf e.targetNodeId) := by
  obtain ⟨order, degF, hok, inv⟩ := kahnOrder_spec nodeIds edges hN hWF
  have hmem : ∀ v, v ∈ order ↔ v ∈ nodeIds := fun v =>
    ⟨fun h => inv.subset v (List.mem_append.mpr (Or.inl h)),
     fun h => acyclic_all_emitted hWF hA inv v h⟩
  refine ⟨order, hok, hmem, ?_, ?_⟩
  · intro v hv
    have h1 := inv.cntB v
    rw [cnt_append, cnt_nil] at h1
    have h2 := (cnt_pos_iff_mem v order).mpr ((hmem v).mpr hv)
    omega
  · intro e he
    have htgt : e.targetNodeId ∈ order := (hmem _).mpr (hWF e he).2
    obtain ⟨hsrc, hlt⟩ := emitted_before_of_reaches inv e.sourceNodeId e.targetNodeId
      (Relation.TransGen.single ⟨e, he, rfl, rfl⟩) htgt
    exact ⟨hsrc, htgt, hlt⟩

/-- Witness for C1 on the chain `a → b → c`. -/
theorem kahn_topological_order_witness :
    ∃ order, kahnOrder ["a", "b", "c"]
        [⟨"e1", "a", "a-output", "b", "b-input"⟩,
         ⟨"e2", "b", "b-output", "c", "c-input"⟩] = .ok order ∧
      (∀ v, v ∈ order ↔ v ∈ ["a", "b", "c"]) ∧
      (∀ v ∈ ["a", "b", "c"], cnt v order = 1) ∧
      (∀ e ∈ [(⟨"e1", "a", "a-output", "b", "b-input"⟩ : Edge),
              ⟨"e2", "b", "b-output", "c", "c-input"⟩],
        e.sourceNodeId ∈ order ∧ e.targetNodeId ∈ order ∧
        order.indexOf e.sourceNodeId < order.indexOf e.targetNodeId) :=
  kahn_topological_order ["a", "b", "c"]
    [⟨"e1", "a", "a-output", "b", "b-input"⟩, ⟨"e2", "b", "b-output", "c", "c-input"⟩]
    (by decide) (by unfold WFGraph; decide)
    (acyclic_of_rank _ (fun s => if s = "a" then 0 else if s = "b" then 1 else 2)
      (by decide))

/-- Counterexample to C4 as stated: in the graph with the cycle `a ⇄ b` and
the extra edge `a → c`, the node `c` lies outside every cycle yet never
appears in the computed execution order (which is empty here), because its
only in-edge comes from the cycle. -/
theorem cycle_exclusion_counterexample :
    Relation.TransGen
      (eStep [⟨"e1", "a", "a-output", "b", "b-input"⟩,
              ⟨"e2", "b", "b-output", "a", "a-input"⟩,
              ⟨"e3", "a", "a-output", "c", "c-input"⟩]) "a" "a" ∧
    ¬ Relation.TransGen
      (eStep [⟨"e1", "a", "a-output", "b", "b-input"⟩,
              ⟨"e2", "b", "b-output", "a", "a-input"⟩,
              ⟨"e3", "a", "a-output", "c", "c-input"⟩]) "c" "c" ∧
    kahnOrder ["a", "b", "c"]
      [⟨"e1", "a", "a-output", "b", "b-input"⟩,
       ⟨"e2", "b", "b-output", "a", "a-input"⟩,
       ⟨"e3", "a", "a-output", "c", "c-input"⟩] = .ok [] ∧
    "c" ∉ ([] : List String) := by
  refine ⟨?_, ?_, ?_, ?_⟩
  · exact Relation.TransGen.head
      ⟨⟨"e1", "a", "a-output", "b", "b-input"⟩, by simp, rfl, rfl⟩
      (Relation.TransGen.single
        ⟨⟨"e2", "b", "b-output", "a", "a-input"⟩, by simp, rfl, rfl⟩)
  · exact no_cycle_of_no_out _ "c" (by decide)
  · rfl
  · simp

/-- C4 (amended): for every well-formed graph, the scheduler raises no cycle
error; nodes lying on a cycle never appear in the order; nodes that no cycle
reaches do appear; and the emitted order is duplicate-free and respects every
edge among emitted nodes.  (The claim's stronger clause — that *every* node
outside the cycle appears — fails: a node fed only from a cycle is silently
excluded too, see the counterexample.) -/
theorem cycle_exclusion_amended (nodeIds : List String) (edges : List Edge)
    (hN : nodeIds.Nodup) (hWF : WFGraph nodeIds edges) :
    ∃ order, kahnOrder nodeIds edges = .ok order ∧
      (∀ v, Relation.TransGen (eStep edges) v v → v ∉ order) ∧
      (∀ v ∈ nodeIds,
        (∀ w, Relation.TransGen (eStep edges) w w →
          ¬ Relation.ReflTransGen (eStep edges) w v) → v ∈ order) ∧
      (∀ v ∈ order, v ∈ nodeIds ∧ cnt v order = 1) ∧
      (∀ e ∈ edges, e.targetNodeId ∈ order →
        e.sourceNodeId ∈ order ∧
        order.indexOf e.sourceNodeId < order.indexOf e.targetNodeId) := by
  obtain ⟨order, degF, hok, inv⟩ := kahnOrder_spec nodeIds edges hN hWF
  refine ⟨order, hok, cycle_not_emitted inv, ?_, ?_, ?_⟩
  · intro v hvN hnoc
    by_contra hvO
    obtain ⟨w, hww, hwv⟩ := missing_reachable_from_cycle hWF inv v hvN hvO
    exact hnoc w hww hwv
  · intro v hv
    refine ⟨inv.subset v (List.mem_append.mpr (Or.inl hv)), ?_⟩
    have h1 := inv.cntB v
    rw [cnt_append, cnt_nil] at h1
    have h2 := (cnt_pos_iff_mem v order).mpr hv
    omega
  · intro e he htgt
    exact emitted_before_of_reaches inv e.sourceNodeId e.targetNodeId
      (Relation.TransGen.single ⟨e, he, rfl, rfl⟩) htgt

/-- Witness for the amended C4 on the cyclic graph `a ⇄ b`, `a → c`. -/
theorem cycle_exclusion_amended_witness :
    ∃ order, kahnOrder ["a", "b", "c"]
        [⟨"e1", "a", "a-output", "b", "b-input"⟩,
         ⟨"e2", "b", "b-output", "a", "a-input"⟩,
         ⟨"e3", "a", "a-output", "c", "c-input"⟩] = .ok order ∧
      (∀ v, Relation.TransGen
          (eStep [⟨"e1", "a", "a-output", "b", "b-input"⟩,
                  ⟨"e2", "b", "b-output", "a", "a-input"⟩,
                  ⟨"e3", "a", "a-output", "c", "c-input"⟩]) v v → v ∉ order) ∧
      (∀ v ∈ ["a", "b", "c"],
        (∀ w, Relation.TransGen
            (eStep [⟨"e1", "a", "a-output", "b", "b-input"⟩,
                    ⟨"e2", "b", "b-output", "a", "a-input"⟩,
                    ⟨"e3", "a", "a-output", "c", "c-input"⟩]) w w →
          ¬ Relation.ReflTransGen
            (eStep [⟨"e1", "a", "a-output", "b", "b-input"⟩,
                    ⟨"e2", "b", "b-output", "a", "a-input"⟩,
                    ⟨"e3", "a", "a-output", "c", "c-input"⟩]) w v) → v ∈ order) ∧
      (∀ v ∈ order, v ∈ ["a", "b", "c"] ∧ cnt v order = 1) ∧
      (∀ e ∈ [(⟨"e1", "a", "a-output", "b", "b-input"⟩ : Edge),
              ⟨"e2", "b", "b-output", "a", "a-input"⟩,
              ⟨"e3", "a", "a-output", "c", "c-input"⟩],
        e.targetNodeId ∈ order →
        e.sourceNodeId ∈ order ∧
        order.indexOf e.sourceNodeId < order.indexOf e.targetNodeId) :=
  cycle_exclusion_amended ["a", "b", "c"]
    [⟨"e1", "a", "a-output", "b", "b-input"⟩,
     ⟨"e2", "b", "b-output", "a", "a-input"⟩,
     ⟨"e3", "a", "a-output", "c", "c-input"⟩]
    (by decide) (by unfold WFGraph; decide)

/-! ### Engine lemmas -/

theorem find?_key_of_map_keyfix (g : (String × Node) → (String × Node))
    (hg : ∀ p, (g p).1 = p.1) (ns : List (String × Node)) (x : String) :
    (ns.map g).find? (fun p => decide (p.1 = x)) =
      (ns.find? (fun p => decide (p.1 = x))).map g := by
  rw [List.find?_map]
  have hpred : ((fun p : String × Node => decide (p.1 = x)) ∘ g)
      = fun p => decide (p.1 = x) := by
    funext p
    simp [Function.comp, hg p]
  rw [hpred]

theorem setNodeData_keyfix (id : String) (f : NodeData → NodeData) :
    ∀ p : String × Node,
      ((fun p : String × Node =>
        if p.1 = id then (p.1, { p.2 with data := f p.2.data }) else p) p).1 = p.1 := by
  intro p
  by_cases h : p.1 = id <;> simp [h]

theorem setNodeData_find?_ne (ns : List (String × Node)) (id : String)
    (f : NodeData → NodeData) (x : String) (hne : x ≠ id) :
    (setNodeData ns id f).find? (fun p => decide (p.1 = x)) =
      ns.find? (fun p => decide (p.1 = x)) := by
  unfold setNodeData
  rw [find?_key_of_map_keyfix _ (setNodeData_keyfix id f)]
  cases h : ns.find? (fun p => decide (p.1 = x)) with
  | none => rfl
  | some p =>
    have hp : p.1 = x := by simpa using List.find?_some h
    simp only [Option.map_some']
    rw [if_neg (by rw [hp]; exact hne)]

theorem setNodeData_find?_self (ns : List (String × Node)) (id : String)
    (f : NodeData → NodeData) (p0 : String × Node)
    (h : ns.find? (fun p => decide (p.1 = id)) = some p0) :
    (setNodeData ns id f).find? (fun p => decide (p.1 = id)) =
      some (p0.1, { p0.2 with data := f p0.2.data }) := by
  unfold setNodeData
  rw [find?_key_of_map_keyfix _ (setNodeData_keyfix id f), h]
  have hp : p0.1 = id := by simpa using List.find?_some h
  simp [hp]

theorem writeOutputs_spec (ports : List Port) (outs : String → JSVal) (v : JSVal)
    (x : String) :
    (x ∈ ports.map Port.id → writeOutputs outs ports v x = v) ∧
    (x ∉ ports.map Port.id → writeOutputs outs ports v x = outs x) := by
  induction ports generalizing outs with
  | nil => simp [writeOutputs]
  | cons p ps ih =>
    constructor
    · intro hx
      by_cases hmem : x ∈ ps.map Port.id
      · exact (ih _).1 hmem
      · have hx' : x ∈ p.id :: ps.map Port.id := by
          rw [List.map_cons] at hx
          exact hx
        have hxp : x = p.id := by
          rcases List.mem_cons.mp hx' with h | h
          · exact h
          · exact absurd h hmem
        have := (ih (fun h => if h = p.id then v else outs h)).2 hmem
        unfold writeOutputs at this ⊢
        simp only [List.foldl_cons]
        rw [this, hxp, if_pos rfl]
    · intro hx
      rw [List.map_cons, List.mem_cons] at hx
      push_neg at hx
      have := (ih (fun h => if h = p.id then v else outs h)).2 hx.2
      unfold writeOutputs at this ⊢
      simp only [List.foldl_cons]
      rw [this, if_neg hx.1]

theorem dispatchPreset_nodes (o : Oracle) (node : Node) (raw : List JSVal)
    (st : EngineState) (out : JSVal) (st2 : EngineState)
    (h : dispatchPreset o node raw st = .ok (out, st2)) : st2.nodes = st.nodes := by
  unfold dispatchPreset at h
  dsimp only at h
  split at h
  · split at h
    · split at h
      · exact absurd h (by simp)
      · simp only [Except.ok.injEq, Prod.mk.injEq] at h
        rw [← h.2]
    · exact absurd h (by simp)
  · exact absurd h (by simp)

theorem dispatchNode_nodes (o : Oracle) (edges : List Edge) (node : Node)
    (inputs : String → JSVal) (st : EngineState) (out : JSVal) (st2 : EngineState)
    (h : dispatchNode o edges node inputs st = .ok (out, st2)) : st2.nodes = st.nodes := by
  unfold dispatchNode at h
  split at h
  · simp only [Except.ok.injEq, Prod.mk.injEq] at h
    rw [← h.2]
  · simp only [Except.ok.injEq, Prod.mk.injEq] at h
    rw [← h.2]
  · dsimp only at h
    simp only [Except.ok.injEq, Prod.mk.injEq] at h
    rw [← h.2]
  · dsimp only at h
    split at h
    · exact absurd h (by simp)
    · split at h
      · split at h
        · split at h
          · exact absurd h (by simp)
          · simp only [Except.ok.injEq, Prod.mk.injEq] at h
            rw [← h.2]
        · exact absurd h (by simp)
      · split at h
        · simp only [Except.ok.injEq, Prod.mk.injEq] at h
          rw [← h.2]
        · exact absurd h (by simp)
  · exact dispatchPreset_nodes o node _ st out st2 h
  · dsimp only at h
    simp only [Except.ok.injEq, Prod.mk.injEq] at h
    rw [← h.2]
  · simp only [Except.ok.injEq, Prod.mk.injEq] at h
    rw [← h.2]

theorem markProcessing_nodes (st : EngineState) (id : String) :
    (markProcessing st id).nodes = setNodeData st.nodes id
      (fun d => { d with status := .PROCESSING, content := .progress "Starting..." }) := rfl

theorem execNodes_cons (o : Oracle) (edges : List Edge) (n : String)
    (rest : List String) (st : EngineState) :
    execNodes o edges (n :: rest) st =
      if (execNode o edges n st).2 then execNodes o edges rest (execNode o edges n st).1
      else (execNode o edges n st).1 := rfl

theorem execNodesTrack_cons (o : Oracle) (edges : List Edge) (n : String)
    (rest : List String) (st : EngineState) :
    execNodesTrack o edges (n :: rest) st =
      if (execNode o edges n st).2 then execNodesTrack o edges rest (execNode o edges n st).1
      else none := rfl

/-- A loop iteration for node `id` changes no other node's map entry. -/
theorem execNode_lookup_other (o : Oracle) (edges : List Edge) (id : String)
    (st : EngineState) (x : String) (hne : x ≠ id) :
    lookupNode (execNode o edges id st).1 x = lookupNode st x := by
  unfold execNode
  cases hlk : lookupNode st id with
  | none => rfl
  | some node =>
    by_cases hm : node.data.isMuted
    · simp only [hm, if_true]
      cases node.data.inputs.head? with
      | some fi =>
        show lookupNode _ x = lookupNode st x
        simp only [lookupNode]
        rw [setNodeData_find?_ne st.nodes id _ x hne]
      | none =>
        show lookupNode _ x = lookupNode st x
        simp only [lookupNode]
        rw [setNodeData_find?_ne st.nodes id _ x hne]
    · simp only [hm, if_false, Bool.false_eq_true]
      cases hd : dispatchNode o edges node (resolveInputs edges st.nodeOutputs id)
          (markProcessing st id) with
      | ok p =>
        obtain ⟨outv, st2⟩ := p
        have h2 : st2.nodes = (markProcessing st id).nodes :=
          dispatchNode_nodes o edges node _ _ outv st2 hd
        show lookupNode _ x = lookupNode st x
        simp only [lookupNode]
        rw [setNodeData_find?_ne st2.nodes id _ x hne, h2, markProcessing_nodes,
          setNodeData_find?_ne st.nodes id _ x hne]
      | error msg =>
        show lookupNode _ x = lookupNode st x
        simp only [lookupNode]
        rw [setNodeData_find?_ne (markProcessing st id).nodes id _ x hne,
          markProcessing_nodes, setNodeData_find?_ne st.nodes id _ x hne]

theorem execNodes_append_track (o : Oracle) (edges : List Edge)
    (pre rest : List String) (st stPre : EngineState)
    (h : execNodesTrack o edges pre st = some stPre) :
    execNodes o edges (pre ++ rest) st = execNodes o edges rest stPre := by
  induction pre generalizing st with
  | nil =>
    simp only [execNodesTrack, Option.some.injEq] at h
    rw [← h]
    rfl
  | cons n pre ih =>
    rw [execNodesTrack_cons] at h
    by_cases hr : (execNode o edges n st).2 = true
    · simp only [hr, if_true] at h
      rw [List.cons_append, execNodes_cons]
      simp only [hr, if_true]
      exact ih _ h
    · simp only [hr, if_false, Bool.false_eq_true] at h
      simp at h

theorem execNodes_cons_abort (o : Oracle) (edges : List Edge) (u : String)
    (rest : List String) (st : EngineState)
    (h : (execNode o edges u st).2 = false) :
    execNodes o edges (u :: rest) st = (execNode o edges u st).1 := by
  unfold execNodes
  simp [h]

theorem execNodesTrack_lookup_not_mem (o : Oracle) (edges : List Edge)
    (l : List String) (st stl : EngineState) (x : String)
    (h : execNodesTrack o edges l st = some stl) (hx : x ∉ l) :
    lookupNode stl x = lookupNode st x := by
  induction l generalizing st with
  | nil =>
    simp only [execNodesTrack, Option.some.injEq] at h
    rw [← h]
  | cons n l ih =>
    rw [execNodesTrack_cons] at h
    by_cases hr : (execNode o edges n st).2 = true
    · simp only [hr, if_true] at h
      rw [List.mem_cons] at hx
      push_neg at hx
      rw [ih _ h hx.2]
      exact execNode_lookup_other o edges n st x hx.1
    · simp only [hr, if_false, Bool.false_eq_true] at h
      simp at h

theorem resetNodes_keys (ns : List (String × Node)) :
    (resetNodes ns).map Prod.fst = ns.map Prod.fst := by
  simp [resetNodes]

theorem find?_key_exists (ns : List (String × Node)) (x : String)
    (hx : x ∈ ns.map Prod.fst) :
    ∃ p, ns.find? (fun p => decide (p.1 = x)) = some p ∧ p.1 = x := by
  induction ns with
  | nil => simp at hx
  | cons q ns ih =>
    by_cases hq : q.1 = x
    · refine ⟨q, ?_, hq⟩
      rw [List.find?_cons]
      simp [hq]
    · rw [List.map_cons, List.mem_cons] at hx
      rcases hx with hx | hx
      · exact absurd hx.symm hq
      · obtain ⟨p, hp, hpx⟩ := ih hx
        refine ⟨p, ?_, hpx⟩
        rw [List.find?_cons]
        simp [hq, hp]

theorem resetNodes_find? (ns : List (String × Node)) (x : String) :
    (resetNodes ns).find? (fun p => decide (p.1 = x)) =
      (ns.find? (fun p => decide (p.1 = x))).map (fun p =>
        (p.1, { p.2 with data := { p.2.data with
          status := .IDLE
          errorMessage := none
          content :=
            if p.2.type = NodeType.TEXT_INPUT ∨ p.2.type = NodeType.IMAGE_INPUT then
              p.2.data.content
            else .null } })) := by
  unfold resetNodes
  apply find?_key_of_map_keyfix
  intro p
  rfl

/-- After the reset, every present node's status is Idle. -/
theorem statusOf_initState_mem (ns : List (String × Node))
    (h0 : List HistoryItem) (x : String) (hx : x ∈ ns.map Prod.fst) :
    statusOf (initState ns h0) x = some NodeStatus.IDLE := by
  obtain ⟨p, hp, hpx⟩ := find?_key_exists ns x hx
  show ((((resetNodes ns).find? (fun p => decide (p.1 = x))).map (·.2)).map
    (·.data.status)) = some NodeStatus.IDLE
  rw [resetNodes_find?, hp]
  rfl

/-- After the reset, a node's status is Idle or the node is absent. -/
theorem statusOf_initState_cases (ns : List (String × Node))
    (h0 : List HistoryItem) (x : String) :
    statusOf (initState ns h0) x = some NodeStatus.IDLE ∨
      statusOf (initState ns h0) x = none := by
  rcases hf : ns.find? (fun p => decide (p.1 = x)) with - | p
  · right
    show ((((resetNodes ns).find? (fun p => decide (p.1 = x))).map (·.2)).map
      (·.data.status)) = none
    rw [resetNodes_find?, hf]
    rfl
  · left
    show ((((resetNodes ns).find? (fun p => decide (p.1 = x))).map (·.2)).map
      (·.data.status)) = some NodeStatus.IDLE
    rw [resetNodes_find?, hf]
    rfl

/-- C2: when the dispatch of a node in the execution order throws, that node
gets status Error with the thrown message as `errorMessage`, `runWorkflow`
returns immediately, every node ordered after it keeps status Idle (never
Processing or Completed), and every node ordered before it keeps its entire
map entry (status and content) from the moment the failing node started. -/
theorem failure_halts_run (o : Oracle) (nodes0 : List (String × Node))
    (history0 : List HistoryItem) (edges : List Edge)
    (hN : (nodes0.map Prod.fst).Nodup)
    (hWF : WFGraph (nodes0.map Prod.fst) edges)
    (order pre post : List String) (u : String)
    (hord : kahnOrder (nodes0.map Prod.fst) edges = .ok order)
    (hsplit : order = pre ++ u :: post)
    (stPre : EngineState)
    (hpre : execNodesTrack o edges pre (initState nodes0 history0) = some stPre)
    (node : Node) (hfound : lookupNode stPre u = some node)
    (hunmuted : node.data.isMuted = false)
    (msg : String)
    (hthrow : dispatchNode o edges node (resolveInputs edges stPre.nodeOutputs u)
        (markProcessing stPre u) = .error msg) :
    runWorkflow o nodes0 history0 edges = .finished (execNode o edges u stPre).1 ∧
      statusOf (execNode o edges u stPre).1 u = some NodeStatus.ERROR ∧
      errMsgOf (execNode o edges u stPre).1 u = some (some msg) ∧
      (∀ v ∈ post, statusOf (execNode o edges u stPre).1 v = some NodeStatus.IDLE) ∧
      (∀ v ∈ pre, lookupNode (execNode o edges u stPre).1 v = lookupNode stPre v) := by
  -- the failing iteration, computed
  have hexec : execNode o edges u stPre =
      ({ markProcessing stPre u with nodes := (setNodeData (markProcessing stPre u).nodes u
          (fun d => { d with status := .ERROR, errorMessage := some msg })) }, false) := by
    unfold execNode
    rw [hfound]
    simp only [hunmuted, Bool.false_eq_true, if_false]
    rw [hthrow]
  -- the invariant-backed order facts
  obtain ⟨order', degF, hok, inv⟩ := kahnOrder_spec (nodes0.map Prod.fst) edges hN hWF
  have hord2 : order' = order := by
    rw [hok] at hord
    exact (Except.ok.injEq _ _).mp hord
  rw [hord2] at inv hok
  have hcnt : ∀ v, cnt v order ≤ 1 := fun v => by
    have h := inv.cntB v
    rw [cnt_append, cnt_nil] at h
    omega
  have hsubN : ∀ v ∈ order, v ∈ nodes0.map Prod.fst := fun v hv =>
    inv.subset v (List.mem_append.mpr (Or.inl hv))
  have hpost_fresh : ∀ v ∈ post, v ∉ pre ∧ v ≠ u := by
    intro v hv
    have h := hcnt v
    rw [hsplit, cnt_append, cnt_cons] at h
    have hp := (cnt_pos_iff_mem v post).mpr hv
    constructor
    · rw [← cnt_eq_zero_iff_not_mem]
      omega
    · intro hc
      subst hc
      simp only [if_pos rfl, if_true] at h
      omega
  have hpre_ne_u : ∀ v ∈ pre, v ≠ u := by
    intro v hv hc
    subst hc
    have h := hcnt v
    rw [hsplit, cnt_append, cnt_cons] at h
    have hp := (cnt_pos_iff_mem v pre).mpr hv
    simp only [if_pos rfl, if_true] at h
    omega
  -- the run outcome
  have hsplit2 : execNodes o edges order (initState nodes0 history0) =
      (execNode o edges u stPre).1 := by
    rw [hsplit, execNodes_append_track o edges pre (u :: post) _ stPre hpre,
      execNodes_cons_abort]
    rw [hexec]
  have hrun : runWorkflow o nodes0 history0 edges =
      .finished (execNode o edges u stPre).1 := by
    have hkey : (initState nodes0 history0).nodes.map (fun p => p.1)
        = nodes0.map Prod.fst := by
      show (resetNodes nodes0).map (fun p => p.1) = _
      simp [resetNodes]
    show (match kahnOrder ((initState nodes0 history0).nodes.map (fun p => p.1)) edges with
      | .error msg => RunOutcome.crashed msg (initState nodes0 history0)
      | .ok ord => RunOutcome.finished (execNodes o edges ord (initState nodes0 history0)))
      = RunOutcome.finished (execNode o edges u stPre).1
    rw [hkey, hok]
    show RunOutcome.finished (execNodes o edges order (initState nodes0 history0))
      = RunOutcome.finished (execNode o edges u stPre).1
    rw [hsplit2]
  have hfind : ∃ p0, stPre.nodes.find? (fun p => decide (p.1 = u)) = some p0 ∧ p0.1 = u := by
    cases hf : stPre.nodes.find? (fun p => decide (p.1 = u)) with
    | none =>
      rw [lookupNode, hf] at hfound
      exact absurd hfound (by simp)
    | some p0 => exact ⟨p0, rfl, by simpa using List.find?_some hf⟩
  obtain ⟨p0, hp0, hp0x⟩ := hfind
  have hp1 : (setNodeData stPre.nodes u (fun d =>
      { d with status := .PROCESSING, content := .progress "Starting..." })).find?
        (fun p => decide (p.1 = u)) = some (p0.1, { p0.2 with data :=
          { p0.2.data with status := .PROCESSING, content := .progress "Starting..." } }) :=
    setNodeData_find?_self stPre.nodes u _ p0 hp0
  refine ⟨hrun, ?_, ?_, ?_, ?_⟩
  · -- status of the failing node
    rw [hexec]
    show ((((setNodeData (markProcessing stPre u).nodes u (fun d =>
      { d with status := .ERROR, errorMessage := some msg })).find?
      (fun p => decide (p.1 = u))).map (·.2)).map (·.data.status)) = some NodeStatus.ERROR
    rw [markProcessing_nodes, setNodeData_find?_self _ u _ _ hp1]
    rfl
  · rw [hexec]
    show ((((setNodeData (markProcessing stPre u).nodes u (fun d =>
      { d with status := .ERROR, errorMessage := some msg })).find?
      (fun p => decide (p.1 = u))).map (·.2)).map (·.data.errorMessage)) = some (some msg)
    rw [markProcessing_nodes, setNodeData_find?_self _ u _ _ hp1]
    rfl
  · intro v hv
    obtain ⟨hvpre, hvu⟩ := hpost_fresh v hv
    have h1 : lookupNode (execNode o edges u stPre).1 v = lookupNode stPre v :=
      execNode_lookup_other o edges u stPre v hvu
    have h2 : lookupNode stPre v = lookupNode (initState nodes0 history0) v :=
      execNodesTrack_lookup_not_mem o edges pre _ stPre v hpre hvpre
    have hvN : v ∈ nodes0.map Prod.fst :=
      hsubN v (by rw [hsplit]; exact List.mem_append.mpr (Or.inr (List.mem_cons_of_mem u hv)))
    have h3 := statusOf_initState_mem nodes0 history0 v hvN
    show (lookupNode (execNode o edges u stPre).1 v).map (·.data.status) = some NodeStatus.IDLE
    rw [h1, h2]
    exact h3
  · intro v hv
    exact execNode_lookup_other o edges u stPre v (hpre_ne_u v hv)

/-! ### Concrete fixtures for witnesses -/

/-- A benign oracle whose calls all succeed. -/
def exOracle : Oracle :=
  ⟨fun _ => .ok "text", fun _ => .ok [], fun _ _ => .ok [], fun _ _ => "video"⟩

/-- A Text Input node (ports as `createNode` builds them). -/
def wNodeA : Node :=
  { id := "a", type := .TEXT_INPUT,
    data := { label := "Text Input", inputs := [],
              outputs := [⟨"a-output", "Text", .text⟩], content := .str "",
              status := .IDLE, errorMessage := none, prompt := none, isMuted := false } }

/-- An Image Generator/Editor node. -/
def wNodeB : Node :=
  { id := "b", type := .IMAGE_EDITOR,
    data := { label := "Image Generator/Editor",
              inputs := [⟨"b-input-image", "Image (Optional)", .image⟩,
                         ⟨"b-input-text", "Prompt", .text⟩],
              outputs := [⟨"b-output-image", "Image", .image⟩,
                          ⟨"b-output-text", "Text", .text⟩],
              content := .null, status := .IDLE, errorMessage := none,
              prompt := none, isMuted := false } }

/-- An Output node. -/
def wNodeC : Node :=
  { id := "c", type := .OUTPUT_DISPLAY,
    data := { label := "Output", inputs := [⟨"c-input", "Input", .any⟩],
              outputs := [], content := .null, status := .IDLE,
              errorMessage := none, prompt := none, isMuted := false } }

def wNodes : List (String × Node) := [("a", wNodeA), ("b", wNodeB), ("c", wNodeC)]

def wEdges : List Edge :=
  [⟨"e1", "a", "a-output", "b", "b-input-text"⟩,
   ⟨"e2", "b", "b-output-image", "c", "c-input"⟩]

/-- The state after the Text Input node has executed. -/
def wStPre : EngineState := (execNode exOracle wEdges "a" (initState wNodes [])).1

/-- Witness for C2: the Image Editor node `b` receives the empty prompt
produced by `a`, throws its validation error, the run finishes at once,
`c` stays Idle, and `a` keeps its state. -/
theorem failure_halts_run_witness :
    runWorkflow exOracle wNodes [] wEdges =
      .finished (execNode exOracle wEdges "b" wStPre).1 ∧
      statusOf (execNode exOracle wEdges "b" wStPre).1 "b" = some NodeStatus.ERROR ∧
      errMsgOf (execNode exOracle wEdges "b" wStPre).1 "b" =
        some (some "A text prompt is required for image generation/editing.") ∧
      (∀ v ∈ ["c"], statusOf (execNode exOracle wEdges "b" wStPre).1 v =
        some NodeStatus.IDLE) ∧
      (∀ v ∈ ["a"], lookupNode (execNode exOracle wEdges "b" wStPre).1 v =
        lookupNode wStPre v) :=
  failure_halts_run exOracle wNodes [] wEdges (by decide) (by unfold WFGraph; decide)
    ["a", "b", "c"] ["a"] ["c"] "b" rfl rfl wStPre rfl wNodeB rfl rfl
    "A text prompt is required for image generation/editing." rfl

/-- C6: a muted node, of any kind, makes no external call, appends nothing
to the history, is marked Completed, and copies the value resolved at its
first input port verbatim to every one of its output ports. -/
theorem muted_passthrough (o : Oracle) (edges : List Edge) (st : EngineState)
    (u : String) (node : Node)
    (hfound : lookupNode st u = some node)
    (hmuted : node.data.isMuted = true) :
    (execNode o edges u st).2 = true ∧
    (execNode o edges u st).1.trace = st.trace ∧
    (execNode o edges u st).1.history = st.history ∧
    statusOf (execNode o edges u st).1 u = some NodeStatus.COMPLETED ∧
    (∀ fi, node.data.inputs.head? = some fi →
      ∀ op ∈ node.data.outputs,
        (execNode o edges u st).1.nodeOutputs op.id =
          resolveInputs edges st.nodeOutputs u fi.id) := by
  have hfind : ∃ p0, st.nodes.find? (fun p => decide (p.1 = u)) = some p0 ∧ p0.1 = u := by
    cases hf : st.nodes.find? (fun p => decide (p.1 = u)) with
    | none =>
      rw [lookupNode, hf] at hfound
      exact absurd hfound (by simp)
    | some p0 => exact ⟨p0, rfl, by simpa using List.find?_some hf⟩
  obtain ⟨p0, hp0, hp0x⟩ := hfind
  cases hh : node.data.inputs.head? with
  | some fi0 =>
    have hexec : execNode o edges u st =
        ({ st with
            nodes := (setNodeData st.nodes u (fun d => { d with status := .COMPLETED }))
            nodeOutputs := (writeOutputs st.nodeOutputs node.data.outputs
              (resolveInputs edges st.nodeOutputs u fi0.id)) }, true) := by
      unfold execNode
      rw [hfound]
      simp only [hmuted, if_true]
      rw [hh]
    refine ⟨by rw [hexec], by rw [hexec], by rw [hexec], ?_, ?_⟩
    · rw [hexec]
      show ((((setNodeData st.nodes u (fun d => { d with status := .COMPLETED })).find?
        (fun p => decide (p.1 = u))).map (·.2)).map (·.data.status))
        = some NodeStatus.COMPLETED
      rw [setNodeData_find?_self st.nodes u _ p0 hp0]
      rfl
    · intro fi hfi op hop
      obtain rfl : fi0 = fi := by simpa using hfi
      rw [hexec]
      exact (writeOutputs_spec node.data.outputs st.nodeOutputs _ op.id).1
        (List.mem_map.mpr ⟨op, hop, rfl⟩)
  | none =>
    have hexec : execNode o edges u st =
        ({ st with
            nodes := (setNodeData st.nodes u (fun d => { d with status := .COMPLETED })) },
         true) := by
      unfold execNode
      rw [hfound]
      simp only [hmuted, if_true]
      rw [hh]
    refine ⟨by rw [hexec], by rw [hexec], by rw [hexec], ?_, ?_⟩
    · rw [hexec]
      show ((((setNodeData st.nodes u (fun d => { d with status := .COMPLETED })).find?
        (fun p => decide (p.1 = u))).map (·.2)).map (·.data.status))
        = some NodeStatus.COMPLETED
      rw [setNodeData_find?_self st.nodes u _ p0 hp0]
      rfl
    · intro fi hfi
      exact absurd hfi (by simp)

/-- A muted Image Editor node fed on its first input port. -/
def mNodeM : Node :=
  { id := "m", type := .IMAGE_EDITOR,
    data := { label := "Image Generator/Editor",
              inputs := [⟨"m-input-image", "Image (Optional)", .image⟩,
                         ⟨"m-input-text", "Prompt", .text⟩],
              outputs := [⟨"m-output-image", "Image", .image⟩,
                          ⟨"m-output-text", "Text", .text⟩],
              content := .null, status := .IDLE, errorMessage := none,
              prompt := none, isMuted := true } }

def mEdges : List Edge := [⟨"e1", "s", "s-out", "m", "m-input-image"⟩]

def mState : EngineState :=
  { nodes := [("m", mNodeM)], history := [],
    nodeOutputs := (fun h => if h = "s-out" then .str "VAL" else .undef),
    trace := [] }

/-- Witness for C6 on a muted Image Editor. -/
theorem muted_passthrough_witness :
    (execNode exOracle mEdges "m" mState).2 = true ∧
    (execNode exOracle mEdges "m" mState).1.trace = mState.trace ∧
    (execNode exOracle mEdges "m" mState).1.history = mState.history ∧
    statusOf (execNode exOracle mEdges "m" mState).1 "m" = some NodeStatus.COMPLETED ∧
    (∀ fi, mNodeM.data.inputs.head? = some fi →
      ∀ op ∈ mNodeM.data.outputs,
        (execNode exOracle mEdges "m" mState).1.nodeOutputs op.id =
          resolveInputs mEdges mState.nodeOutputs "m" fi.id) :=
  muted_passthrough exOracle mEdges mState "m" mNodeM rfl rfl

/-- C3 (amended): when the wrapped text-completion call of an unmuted
TextGenerator node ultimately throws, `generateText` catches the error and
returns the formatted error string; the node Completes with that string as
its content, the call is still traced, and the run continues — the error is
folded into ordinary output instead of failing the node. -/
theorem textgen_error_completes (o : Oracle) (edges : List Edge) (st : EngineState)
    (u : String) (node : Node) (e : ErrMessage)
    (hfound : lookupNode st u = some node)
    (htype : node.type = NodeType.TEXT_GENERATOR)
    (hunmuted : node.data.isMuted = false)
    (hprompt : truthy (resolveInputs edges st.nodeOutputs u (node.id ++ "-input")) = true)
    (herr : o.genContentText (resolveInputs edges st.nodeOutputs u (node.id ++ "-input"))
      = .error e) :
    (execNode o edges u st).2 = true ∧
    statusOf (execNode o edges u st).1 u = some NodeStatus.COMPLETED ∧
    contentOf (execNode o edges u st).1 u = some (.str (formatError e)) ∧
    (execNode o edges u st).1.trace = st.trace ++
      [.genContentText (resolveInputs edges st.nodeOutputs u (node.id ++ "-input"))] := by
  have hfind : ∃ p0, st.nodes.find? (fun p => decide (p.1 = u)) = some p0 ∧ p0.1 = u := by
    cases hf : st.nodes.find? (fun p => decide (p.1 = u)) with
    | none =>
      rw [lookupNode, hf] at hfound
      exact absurd hfound (by simp)
    | some p0 => exact ⟨p0, rfl, by simpa using List.find?_some hf⟩
  obtain ⟨p0, hp0, hp0x⟩ := hfind
  have hdisp : dispatchNode o edges node (resolveInputs edges st.nodeOutputs u)
      (markProcessing st u) = .ok (.str (formatError e),
        { markProcessing st u with trace := ((markProcessing st u).trace ++
          [.genContentText (resolveInputs edges st.nodeOutputs u (node.id ++ "-input"))]) }) := by
    unfold dispatchNode
    rw [htype]
    dsimp only
    unfold generateText
    rw [hprompt]
    simp only [Bool.not_true, Bool.false_eq_true, if_false]
    rw [herr]
  have hexec : execNode o edges u st =
      ({ markProcessing st u with
          nodes := (setNodeData (markProcessing st u).nodes u
            (fun d => { d with status := .COMPLETED, content := .str (formatError e) }))
          trace := ((markProcessing st u).trace ++
            [.genContentText (resolveInputs edges st.nodeOutputs u (node.id ++ "-input"))])
          nodeOutputs := (routeOutputs node (.str (formatError e))
            (markProcessing st u).nodeOutputs) }, true) := by
    unfold execNode
    rw [hfound]
    simp only [hunmuted, Bool.false_eq_true, if_false]
    rw [hdisp]
  have hp1 : (setNodeData st.nodes u (fun d =>
      { d with status := .PROCESSING, content := .progress "Starting..." })).find?
        (fun p => decide (p.1 = u)) = some (p0.1, { p0.2 with data :=
          { p0.2.data with status := .PROCESSING, content := .progress "Starting..." } }) :=
    setNodeData_find?_self st.nodes u _ p0 hp0
  refine ⟨by rw [hexec], ?_, ?_, by rw [hexec]; rfl⟩
  · rw [hexec]
    show ((((setNodeData (markProcessing st u).nodes u (fun d =>
      { d with status := .COMPLETED, content := .str (formatError e) })).find?
      (fun p => decide (p.1 = u))).map (·.2)).map (·.data.status))
      = some NodeStatus.COMPLETED
    rw [markProcessing_nodes, setNodeData_find?_self _ u _ _ hp1]
    rfl
  · rw [hexec]
    show ((((setNodeData (markProcessing st u).nodes u (fun d =>
      { d with status := .COMPLETED, content := .str (formatError e) })).find?
      (fun p => decide (p.1 = u))).map (·.2)).map (·.data.content))
      = some (.str (formatError e))
    rw [markProcessing_nodes, setNodeData_find?_self _ u _ _ hp1]
    rfl

/-- Status of a node in a run outcome. -/
def runStatusOf (r : RunOutcome) (x : String) : Option NodeStatus :=
  match r with
  | .finished st => statusOf st x
  | .crashed _ st => statusOf st x

/-- Content of a node in a run outcome. -/
def runContentOf (r : RunOutcome) (x : String) : Option JSVal :=
  match r with
  | .finished st => contentOf st x
  | .crashed _ st => contentOf st x

/-- An oracle whose text-completion call always throws a non-rate-limit
error. -/
def bOracle : Oracle :=
  ⟨fun _ => .error (.plain "boom"), fun _ => .ok [], fun _ _ => .ok [], fun _ _ => "video"⟩

def gNodeA : Node :=
  { id := "a", type := .TEXT_INPUT,
    data := { label := "Text Input", inputs := [],
              outputs := [⟨"a-output", "Text", .text⟩], content := .str "p",
              status := .IDLE, errorMessage := none, prompt := none, isMuted := false } }

def gNodeG : Node :=
  { id := "g", type := .TEXT_GENERATOR,
    data := { label := "Text Generator", inputs := [⟨"g-input", "Prompt", .text⟩],
              outputs := [⟨"g-output", "Text", .text⟩], content := .null,
              status := .IDLE, errorMessage := none, prompt := none, isMuted := false } }

def gNodeC : Node :=
  { id := "c", type := .OUTPUT_DISPLAY,
    data := { label := "Output", inputs := [⟨"c-input", "Input", .any⟩],
              outputs := [], content := .null, status := .IDLE,
              errorMessage := none, prompt := none, isMuted := false } }

def gNodes : List (String × Node) := [("a", gNodeA), ("g", gNodeG), ("c", gNodeC)]

def gEdges : List Edge :=
  [⟨"e1", "a", "a-output", "g", "g-input"⟩,
   ⟨"e2", "g", "g-output", "c", "c-input"⟩]

/-- Counterexample to C3 as stated: with a text-completion call that throws,
the TextGenerator node does not fail — it Completes with the formatted error
string as its content, and the run continues to the downstream node. -/
theorem textgen_error_counterexample :
    runStatusOf (runWorkflow bOracle gNodes [] gEdges) "g" = some NodeStatus.COMPLETED ∧
    runStatusOf (runWorkflow bOracle gNodes [] gEdges) "g" ≠ some NodeStatus.ERROR ∧
    runContentOf (runWorkflow bOracle gNodes [] gEdges) "g" = some (.str "Error: boom") ∧
    runStatusOf (runWorkflow bOracle gNodes [] gEdges) "c" = some NodeStatus.COMPLETED := by
  refine ⟨?_, ?_, ?_, ?_⟩ <;> decide

/-- The state in which the TextGenerator witness node runs. -/
def gState : EngineState :=
  { nodes := [("g", gNodeG)], history := [],
    nodeOutputs := (fun h => if h = "a-output" then .str "p" else .undef),
    trace := [] }

/-- Witness for the amended C3. -/
theorem textgen_error_completes_witness :
    (execNode bOracle gEdges "g" gState).2 = true ∧
    statusOf (execNode bOracle gEdges "g" gState).1 "g" = some NodeStatus.COMPLETED ∧
    contentOf (execNode bOracle gEdges "g" gState).1 "g" =
      some (.str (formatError (.plain "boom"))) ∧
    (execNode bOracle gEdges "g" gState).1.trace = gState.trace ++
      [.genContentText (resolveInputs gEdges gState.nodeOutputs "g" (gNodeG.id ++ "-input"))] :=
  textgen_error_completes bOracle gEdges gState "g" gNodeG (.plain "boom")
    rfl rfl rfl (by decide) rfl

/-- C5: the retry wrapper's policy.  For any wrapped call and any sampled
jitter: two rate-limit failures followed by a success return the success
value after exactly 3 invocations, having waited
`INITIAL_DELAY_MS * 2^i + jitter i` before retry `i+1`; a first failure that
is not rate-limit-classified propagates after exactly 1 invocation with no
wait; and three rate-limit failures exhaust the budget and propagate the
last error after 3 invocations and 2 waits. -/
theorem withRetry_policy {α : Type} (call : Nat → Except ErrMessage α)
    (jitter : Nat → ℚ) :
    (∀ e0 e1 (v : α), call 0 = .error e0 → call 1 = .error e1 → call 2 = .ok v →
      isRateLimitError e0 = true → isRateLimitError e1 = true →
      withRetry call jitter = (.ok v, 3,
        [INITIAL_DELAY_MS * 2 ^ 0 + jitter 0, INITIAL_DELAY_MS * 2 ^ 1 + jitter 1])) ∧
    (∀ e0, call 0 = .error e0 → isRateLimitError e0 = false →
      withRetry call jitter = (.error e0, 1, [])) ∧
    (∀ e0 e1 e2, call 0 = .error e0 → call 1 = .error e1 → call 2 = .error e2 →
      isRateLimitError e0 = true → isRateLimitError e1 = true →
      isRateLimitError e2 = true →
      withRetry call jitter = (.error e2, 3,
        [INITIAL_DELAY_MS * 2 ^ 0 + jitter 0, INITIAL_DELAY_MS * 2 ^ 1 + jitter 1])) := by
  refine ⟨?_, ?_, ?_⟩
  · intro e0 e1 v h0 h1 h2 hr0 hr1
    unfold withRetry MAX_RETRIES
    rw [retryGo]
    simp only [MAX_RETRIES, show (3:Nat) - (2 + 1) = 0 from rfl,
      h0, hr0, if_true, show ((0:Nat) < 3 - 1) = True from by simp, List.nil_append]
    rw [retryGo]
    simp only [MAX_RETRIES, show (3:Nat) - (1 + 1) = 1 from rfl,
      h1, hr1, if_true, show ((1:Nat) < 3 - 1) = True from by simp]
    rw [retryGo]
    simp only [MAX_RETRIES, show (3:Nat) - (0 + 1) = 2 from rfl, h2]
    rfl
  · intro e0 h0 hr0
    unfold withRetry MAX_RETRIES
    rw [retryGo]
    simp only [MAX_RETRIES, show (3:Nat) - (2 + 1) = 0 from rfl,
      h0, hr0, Bool.false_eq_true, if_false]
  · intro e0 e1 e2 h0 h1 h2 hr0 hr1 hr2
    unfold withRetry MAX_RETRIES
    rw [retryGo]
    simp only [MAX_RETRIES, show (3:Nat) - (2 + 1) = 0 from rfl,
      h0, hr0, if_true, show ((0:Nat) < 3 - 1) = True from by simp, List.nil_append]
    rw [retryGo]
    simp only [MAX_RETRIES, show (3:Nat) - (1 + 1) = 1 from rfl,
      h1, hr1, if_true, show ((1:Nat) < 3 - 1) = True from by simp]
    rw [retryGo]
    simp only [MAX_RETRIES, show (3:Nat) - (0 + 1) = 2 from rfl,
      h2, hr2, if_true, show ((2:Nat) < 3 - 1) = False from by simp, if_false]
    rfl

/-- A call that hits the rate limit twice, then succeeds. -/
def rlCall : Nat → Except ErrMessage Nat :=
  fun i => if i < 2 then .error (.plain "429 too many requests") else .ok 42

/-- A call that fails immediately with an unclassified error. -/
def badCall : Nat → Except ErrMessage Nat :=
  fun _ => .error (.plain "boom")

def exJitter : Nat → ℚ := fun _ => 5

/-- Witness for C5 on concrete calls. -/
theorem withRetry_policy_witness :
    withRetry rlCall exJitter = (.ok 42, 3,
      [INITIAL_DELAY_MS * 2 ^ 0 + exJitter 0, INITIAL_DELAY_MS * 2 ^ 1 + exJitter 1]) ∧
    withRetry badCall exJitter = (.error (.plain "boom"), 1, []) :=
  ⟨(withRetry_policy rlCall exJitter).1 (.plain "429 too many requests")
      (.plain "429 too many requests") 42 rfl rfl rfl (by decide) (by decide),
   (withRetry_policy badCall exJitter).2.1 (.plain "boom") rfl (by decide)⟩

/-- Lists mapped through an everywhere-defined partial function keep their
length. -/
theorem filterMap_length_of_isSome {β : Type} (l : List JSVal)
    (f : JSVal → Option β) (h : ∀ v ∈ l, (f v).isSome) :
    (l.filterMap f).length = l.length := by
  induction l with
  | nil => rfl
  | cons a as ih =>
    rw [List.filterMap_cons]
    obtain ⟨b, hb⟩ := Option.isSome_iff_exists.mp (h a (List.mem_cons_self a as))
    rw [hb]
    simp only [List.length_cons]
    rw [ih (fun v hv => h v (List.mem_cons_of_mem a hv))]

/-- C7: a `PROMPT_PRESET` node with an aggregating multi-image handle fed by
`N` edges collects, at dispatch time, exactly the `N` upstream values of
those edges in edge-map insertion order: the raw sequence is the in-order
map of the feeding edges, its length is the number of feeding edges, its
`k`-th element is the `k`-th feeding edge's source value, and when every
value decodes as an image the decoded list passed to the transform call
still has exactly `N` elements. -/
theorem preset_aggregation (edges : List Edge) (nodeOutputs : String → JSVal)
    (node : Node) (inputs : String → JSVal) (mi : Port)
    (hmi : node.data.inputs.find?
      (fun i => decide (i.id = node.id ++ "-input-multi-image")) = some mi) :
    presetRawInputs edges nodeOutputs node inputs =
      (edges.filter (fun e =>
        decide (e.targetNodeId = node.id ∧ e.targetHandleId = mi.id))).map
        (fun e => nodeOutputs e.sourceHandleId) ∧
    (presetRawInputs edges nodeOutputs node inputs).length =
      edges.countP (fun e =>
        decide (e.targetNodeId = node.id ∧ e.targetHandleId = mi.id)) ∧
    (∀ k : Nat, (presetRawInputs edges nodeOutputs node inputs).get? k =
      ((edges.filter (fun e =>
        decide (e.targetNodeId = node.id ∧ e.targetHandleId = mi.id))).get? k).map
        (fun e => nodeOutputs e.sourceHandleId)) ∧
    ((∀ v ∈ presetRawInputs edges nodeOutputs node inputs,
        (processImageInput v).isSome) →
      ((presetRawInputs edges nodeOutputs node inputs).filterMap
        processImageInput).length =
        edges.countP (fun e =>
          decide (e.targetNodeId = node.id ∧ e.targetHandleId = mi.id))) := by
  have hdef : presetRawInputs edges nodeOutputs node inputs =
      (edges.filter (fun e =>
        decide (e.targetNodeId = node.id ∧ e.targetHandleId = mi.id))).map
        (fun e => nodeOutputs e.sourceHandleId) := by
    unfold presetRawInputs
    rw [hmi]
  have hlen : (presetRawInputs edges nodeOutputs node inputs).length =
      edges.countP (fun e =>
        decide (e.targetNodeId = node.id ∧ e.targetHandleId = mi.id)) := by
    rw [hdef, List.length_map, List.countP_eq_length_filter]
  refine ⟨hdef, hlen, ?_, ?_⟩
  · intro k
    rw [hdef]
    simp [List.get?_eq_getElem?, List.getElem?_map]
  · intro hall
    rw [filterMap_length_of_isSome _ _ hall, hlen]

/-- A preset node with the aggregating multi-image handle. -/
def pNode : Node :=
  { id := "p", type := .PROMPT_PRESET,
    data := { label := "Figure",
              inputs := [⟨"p-input-multi-image", "Images", .image⟩],
              outputs := [⟨"p-output-0", "Image", .image⟩],
              content := .null, status := .IDLE, errorMessage := none,
              prompt := some "TPL", isMuted := false } }

def pEdges : List Edge :=
  [⟨"e1", "x", "x-out", "p", "p-input-multi-image"⟩,
   ⟨"e2", "y", "y-out", "p", "p-input-multi-image"⟩]

def pOuts : String → JSVal :=
  fun h => (if h = "x-out" then .file "D1" "image/png"
            else if h = "y-out" then .file "D2" "image/png" else .undef)

/-- Witness for C7: both aggregated values, in edge-insertion order. -/
theorem preset_aggregation_witness :
    presetRawInputs pEdges pOuts pNode (fun _ => .undef) =
      (pEdges.filter (fun e =>
        decide (e.targetNodeId = pNode.id ∧
          e.targetHandleId = "p-input-multi-image"))).map
        (fun e => pOuts e.sourceHandleId) ∧
    (presetRawInputs pEdges pOuts pNode (fun _ => .undef)).length =
      pEdges.countP (fun e =>
        decide (e.targetNodeId = pNode.id ∧
          e.targetHandleId = "p-input-multi-image")) ∧
    (∀ k : Nat, (presetRawInputs pEdges pOuts pNode (fun _ => .undef)).get? k =
      ((pEdges.filter (fun e =>
        decide (e.targetNodeId = pNode.id ∧
          e.targetHandleId = "p-input-multi-image"))).get? k).map
        (fun e => pOuts e.sourceHandleId)) ∧
    ((∀ v ∈ presetRawInputs pEdges pOuts pNode (fun _ => .undef),
        (processImageInput v).isSome) →
      ((presetRawInputs pEdges pOuts pNode (fun _ => .undef)).filterMap
        processImageInput).length =
        pEdges.countP (fun e =>
          decide (e.targetNodeId = pNode.id ∧
            e.targetHandleId = "p-input-multi-image"))) :=
  preset_aggregation pEdges pOuts pNode (fun _ => .undef)
    ⟨"p-input-multi-image", "Images", .image⟩ rfl

/-- C8: the `IMAGE_EDITOR` dispatch.  With a falsy resolved text prompt the
node throws the validation error (so no history item is appended and the run
aborts at this node); with a truthy prompt and an image-decodable image
input, the edit call's `{image, text}` result becomes the structured output
and exactly one history item with the produced data URL and the prompt is
prepended; with a truthy prompt and no decodable image input, the generation
call's data URL becomes the output with a null text field and exactly one
such history item is prepended. -/
theorem image_editor_behavior (o : Oracle) (edges : List Edge) (node : Node)
    (inputs : String → JSVal) (st : EngineState)
    (htype : node.type = .IMAGE_EDITOR) :
    (truthy (inputs (node.id ++ "-input-text")) = false →
      dispatchNode o edges node inputs st =
        .error "A text prompt is required for image generation/editing.") ∧
    (∀ data mime b txt tr2,
      truthy (inputs (node.id ++ "-input-text")) = true →
      processImageInput (inputs (node.id ++ "-input-image")) = some (data, mime) →
      editImage o data mime (inputs (node.id ++ "-input-text")) st.trace =
        ((some b, txt), tr2) →
      (b == "") = false →
      dispatchNode o edges node inputs st =
        .ok (.imageText (.str ("data:" ++ mime ++ ";base64," ++ b)) (optStrToVal txt),
          { st with
              trace := tr2
              history := (⟨"", "image", "data:" ++ mime ++ ";base64," ++ b,
                inputs (node.id ++ "-input-text")⟩ :: st.history) })) ∧
    (∀ r tr2,
      truthy (inputs (node.id ++ "-input-text")) = true →
      processImageInput (inputs (node.id ++ "-input-image")) = none →
      generateImage o (inputs (node.id ++ "-input-text")) st.trace = (r, tr2) →
      strStarts r "data:image" = true →
      dispatchNode o edges node inputs st =
        .ok (.imageText (.str r) .null,
          { st with
              trace := tr2
              history := (⟨"", "image", r,
                inputs (node.id ++ "-input-text")⟩ :: st.history) })) := by
  refine ⟨?_, ?_, ?_⟩
  · intro hf
    unfold dispatchNode
    rw [htype]
    dsimp only
    rw [hf]
    rfl
  · intro data mime b txt tr2 ht hpi he hb
    unfold dispatchNode
    rw [htype]
    dsimp only
    rw [ht, hpi]
    dsimp only
    rw [he]
    dsimp only
    rw [hb]
    rfl
  · intro r tr2 ht hpi hg hs
    unfold dispatchNode
    rw [htype]
    dsimp only
    rw [ht, hpi]
    dsimp only
    rw [hg]
    dsimp only
    rw [hs]
    rfl

/-- An oracle whose edit call yields a text note then an image payload, and
whose image-generation call yields one png image. -/
def iOracle : Oracle :=
  { genContentText := (fun _ => .ok "t")
    genImages := (fun _ => .ok [⟨some ("NEWIMG", some "image/png")⟩])
    genContentParts := (fun _ _ => .ok [⟨some "a note", none⟩, ⟨none, some "EDITB64"⟩])
    videoResult := (fun _ _ => "v") }

/-- An image-editor node with the standard image/text inputs. -/
def iNode : Node :=
  { id := "i", type := .IMAGE_EDITOR,
    data := { label := "Editor",
              inputs := [⟨"i-input-image", "Image", .image⟩,
                         ⟨"i-input-text", "Prompt", .text⟩],
              outputs := [⟨"i-output-image", "Image", .image⟩,
                          ⟨"i-output-text", "Text", .text⟩],
              content := .null, status := .IDLE, errorMessage := none,
              prompt := none, isMuted := false } }

/-- Resolved inputs for the edit-mode scenario: an image file and a prompt. -/
def iInputsEdit : String → JSVal :=
  fun h => (if h = "i-input-image" then .file "SRCB64" "image/png"
            else if h = "i-input-text" then .str "make it blue" else .undef)

/-- Resolved inputs for the generation-mode scenario: prompt only. -/
def iInputsGen : String → JSVal :=
  fun h => if h = "i-input-text" then .str "draw a cat" else .undef

def iState : EngineState :=
  { nodes := [("i", iNode)], history := [],
    nodeOutputs := (fun _ => JSVal.undef), trace := [] }

/-- Witness for C8: the three editor scenarios at concrete inputs. -/
theorem image_editor_behavior_witness :
    (dispatchNode iOracle [] iNode (fun _ => .undef) iState =
      .error "A text prompt is required for image generation/editing.") ∧
    (dispatchNode iOracle [] iNode iInputsEdit iState =
      .ok (.imageText (.str ("data:" ++ "image/png" ++ ";base64," ++ "EDITB64"))
             (optStrToVal (some "a note")),
        { iState with
            trace := [.genContentParts [("SRCB64", "image/png")] (.str "make it blue")]
            history := (⟨"", "image", "data:" ++ "image/png" ++ ";base64," ++ "EDITB64",
              iInputsEdit ("i" ++ "-input-text")⟩ :: iState.history) })) ∧
    (dispatchNode iOracle [] iNode iInputsGen iState =
      .ok (.imageText (.str "data:image/png;base64,NEWIMG") .null,
        { iState with
            trace := [.genImages (.str "draw a cat")]
            history := (⟨"", "image", "data:image/png;base64,NEWIMG",
              iInputsGen ("i" ++ "-input-text")⟩ :: iState.history) })) :=
  ⟨(image_editor_behavior iOracle [] iNode (fun _ => .undef) iState rfl).1 rfl,
   (image_editor_behavior iOracle [] iNode iInputsEdit iState rfl).2.1
     "SRCB64" "image/png" "EDITB64" (some "a note")
     [.genContentParts [("SRCB64", "image/png")] (.str "make it blue")]
     rfl rfl rfl rfl,
   (image_editor_behavior iOracle [] iNode iInputsGen iState rfl).2.2
     "data:image/png;base64,NEWIMG" [.genImages (.str "draw a cat")]
     rfl rfl rfl (by decide)⟩

/-- `find?` returns the head of the first satisfying split. -/
theorem find?_head_of_split {α : Type} (p : α → Bool) (pre : List α) (x : α)
    (post : List α) (hpre : ∀ q ∈ pre, p q = false) (hx : p x = true) :
    (pre ++ x :: post).find? p = some x := by
  induction pre with
  | nil => simp [List.find?_cons_of_pos, hx]
  | cons a as ih =>
    rw [List.cons_append, List.find?_cons_of_neg]
    · exact ih (fun q hq => hpre q (List.mem_cons_of_mem a hq))
    · simp [hpre a (List.mem_cons_self a as)]

/-- C9: port compatibility and auto-routing.  Compatibility holds exactly
when the two types are equal or either is `any`.  For a drop on a node body
(source node, handle and target node all resolvable, not a self-drop): if
the target's input ports split as `pre ++ input :: post` where nothing in
`pre` qualifies (type-compatible and available) and `input` does, the
resolver picks `input` and the final check creates exactly that edge; if no
input port qualifies, the resolver yields nothing and no edge is created. -/
theorem compat_auto_routing :
    (∀ s t, isCompatible s t = true ↔ (s = t ∨ s = .any ∨ t = .any)) ∧
    (∀ (nodes : List (String × Node)) (edges : List Edge)
       (srcId srcHandleId tgtId newId : String)
       (sourceNode : Node) (sourceHandle : Port) (targetNode : Node),
      (nodes.find? (fun p => decide (p.1 = srcId))).map (·.2) = some sourceNode →
      sourceNode.data.outputs.find? (fun op => decide (op.id = srcHandleId)) =
        some sourceHandle →
      (nodes.find? (fun p => decide (p.1 = tgtId))).map (·.2) = some targetNode →
      srcId ≠ tgtId →
      (∀ pre input post,
        targetNode.data.inputs = pre ++ input :: post →
        (∀ q ∈ pre, portQualifies edges targetNode tgtId sourceHandle.type q = false) →
        portQualifies edges targetNode tgtId sourceHandle.type input = true →
        autoRouteTarget nodes edges srcId srcHandleId tgtId = some (tgtId, input.id) ∧
        tryCreateEdge nodes edges newId srcId srcHandleId
          (autoRouteTarget nodes edges srcId srcHandleId tgtId) =
          some ⟨newId, srcId, srcHandleId, tgtId, input.id⟩) ∧
      ((∀ q ∈ targetNode.data.inputs,
          portQualifies edges targetNode tgtId sourceHandle.type q = false) →
        autoRouteTarget nodes edges srcId srcHandleId tgtId = none ∧
        tryCreateEdge nodes edges newId srcId srcHandleId
          (autoRouteTarget nodes edges srcId srcHandleId tgtId) = none)) := by
  constructor
  · intro s t
    cases s <;> cases t <;> decide
  · intro nodes edges srcId srcHandleId tgtId newId sourceNode sourceHandle targetNode
      hsrc hout htgt hne
    have hauto : autoRouteTarget nodes edges srcId srcHandleId tgtId =
        (targetNode.data.inputs.find?
          (portQualifies edges targetNode tgtId sourceHandle.type)).map
          (fun input => (tgtId, input.id)) := by
      unfold autoRouteTarget
      rw [hsrc]
      dsimp only
      rw [hout]
      dsimp only
      rw [htgt]
      dsimp only
      rw [if_neg hne]
    constructor
    · intro pre input post hsplit hpre hq
      have hfind : targetNode.data.inputs.find?
          (portQualifies edges targetNode tgtId sourceHandle.type) = some input := by
        rw [hsplit]
        exact find?_head_of_split _ pre input post hpre hq
      have hroute : autoRouteTarget nodes edges srcId srcHandleId tgtId =
          some (tgtId, input.id) := by
        rw [hauto, hfind]
        rfl
      refine ⟨hroute, ?_⟩
      have hq2 := hq
      unfold portQualifies at hq2
      have havail := (Bool.and_eq_true _ _ ▸ hq2).2
      rw [hroute]
      unfold tryCreateEdge
      dsimp only
      rw [if_neg hne]
      rw [htgt]
      dsimp only
      simp [havail]
    · intro hnone
      have hfind : targetNode.data.inputs.find?
          (portQualifies edges targetNode tgtId sourceHandle.type) = none :=
        List.find?_eq_none.2 (fun x hx => by simp [hnone x hx])
      have hroute : autoRouteTarget nodes edges srcId srcHandleId tgtId = none := by
        rw [hauto, hfind]
        rfl
      exact ⟨hroute, by rw [hroute]; rfl⟩

/-- A source node with one image output. -/
def cSrcNode : Node :=
  { id := "s", type := .IMAGE_INPUT,
    data := { label := "Src", inputs := [],
              outputs := [⟨"s-out", "Out", .image⟩],
              content := .null, status := .IDLE, errorMessage := none,
              prompt := none, isMuted := false } }

/-- A target whose first port is type-incompatible, second occupied, third
free and compatible via `any`. -/
def cTgtNode : Node :=
  { id := "t", type := .IMAGE_EDITOR,
    data := { label := "Tgt",
              inputs := [⟨"t-in-text", "Prompt", .text⟩,
                         ⟨"t-in-image", "Image", .image⟩,
                         ⟨"t-in-any", "Any", .any⟩],
              outputs := [], content := .null, status := .IDLE,
              errorMessage := none, prompt := none, isMuted := false } }

def cNodes : List (String × Node) := [("s", cSrcNode), ("t", cTgtNode)]

/-- An edge already occupying the image port of the target. -/
def cEdges : List Edge := [⟨"e0", "s", "s-out", "t", "t-in-image"⟩]

/-- Witness for C9: the scan skips an incompatible and an occupied port and
routes to the third. -/
theorem compat_auto_routing_witness :
    (isCompatible .image .any = true ↔
      (PortType.image = .any ∨ PortType.image = .any ∨ PortType.any = .any)) ∧
    (autoRouteTarget cNodes cEdges "s" "s-out" "t" = some ("t", "t-in-any") ∧
     tryCreateEdge cNodes cEdges "e9" "s" "s-out"
       (autoRouteTarget cNodes cEdges "s" "s-out" "t") =
       some ⟨"e9", "s", "s-out", "t", "t-in-any"⟩) :=
  ⟨compat_auto_routing.1 .image .any,
   (compat_auto_routing.2 cNodes cEdges "s" "s-out" "t" "e9"
       cSrcNode ⟨"s-out", "Out", .image⟩ cTgtNode rfl rfl rfl (by decide)).1
     [⟨"t-in-text", "Prompt", .text⟩, ⟨"t-in-image", "Image", .image⟩]
     ⟨"t-in-any", "Any", .any⟩ [] rfl (by decide) (by decide)⟩

/-- An oracle for the ghost-edge crash scenario (never reached). -/
def tOracle : Oracle :=
  { genContentText := (fun _ => .ok "t")
    genImages := (fun _ => .ok [])
    genContentParts := (fun _ _ => .ok [])
    videoResult := (fun _ _ => "v") }

/-- A single text-input node. -/
def tNodeA : Node :=
  { id := "a", type := .TEXT_INPUT,
    data := { label := "A", inputs := [],
              outputs := [⟨"a-output", "Out", .text⟩],
              content := .str "hello", status := .IDLE, errorMessage := none,
              prompt := none, isMuted := false } }

def tNodes : List (String × Node) := [("a", tNodeA)]

/-- An edge whose source node is absent from the node map (e.g. loaded from
an external workflow file). -/
def tEdges : List Edge := [⟨"e", "ghost", "ghost-out", "a", "a-input"⟩]

/-- C10: totality of the scheduling phase.  For every graph whose edges all
connect present nodes, the adjacency/in-degree construction and the order
computation complete without exception.  For the concrete graph with an
edge out of an absent node, the whole run rejects with the `TypeError`
raised by pushing onto an undefined adjacency entry, the returned state is
the freshly reset one, and every node is still Idle — no node executed. -/
theorem schedule_totality :
    (∀ (nodeIds : List String) (edges : List Edge), WFGraph nodeIds edges →
      ∃ order, kahnOrder nodeIds edges = .ok order) ∧
    (runWorkflow tOracle tNodes [] tEdges =
       .crashed "TypeError: Cannot read properties of undefined (reading push)"
         (initState tNodes []) ∧
     ∀ nid ∈ tNodes.map (·.1),
       statusOf (initState tNodes []) nid = some .IDLE) := by
  refine ⟨?_, ?_, ?_⟩
  · intro nodeIds edges hWF
    obtain ⟨adj', deg', hok, -, -⟩ :=
      buildPhase_char edges (initAdj nodeIds) (initDeg nodeIds)
        (fun e he => by simp [initAdj, (hWF e he).1])
    refine ⟨(kahnLoop adj' nodeIds.length deg'
      (nodeIds.filter (fun id => decide (deg' id = some 0))) []).1, ?_⟩
    unfold kahnOrder
    rw [hok]
  · rfl
  · decide

/-- Witness for C10: a two-node well-formed graph schedules successfully. -/
theorem schedule_totality_witness :
    WFGraph ["a", "b"] [⟨"e", "a", "a-out", "b", "b-in"⟩] ∧
    ∃ order, kahnOrder ["a", "b"] [⟨"e", "a", "a-out", "b", "b-in"⟩] = .ok order :=
  ⟨by unfold WFGraph; decide,
   schedule_totality.1 ["a", "b"] [⟨"e", "a", "a-out", "b", "b-in"⟩]
     (by unfold WFGraph; decide)⟩

end BananaFlow
